import Mathlib

/-!
Tar serialisation of a file tree (`tarwriter.go`)

A shallow embedding of `TarWriter.WriteFile`, `writeDir`, `writeFile` and the three
header helpers of `tarwriter.go`, together with the parts of the Go standard library
they call (`path.Join`, `io.Copy`, `archive/tar.Writer`) and of the node abstraction
they consume (`Node`, `File`, `Directory`, `*Symlink`, `DirIterator`).

Go strings are kept as `String`; byte slices are lists of byte values (`List Nat`).
Go's `error` results are `Option Error` (`none` is `nil`).
-/

namespace TarWriter

/-! ## Errors -/

/-- A Go `error` value, identified by its message. -/
abbrev Error := String

/-- The sentinel `tar.ErrWriteTooLong` of `archive/tar`. -/
def ErrWriteTooLong : Error := "archive/tar: write too long"

/-- The sentinel `io.ErrShortWrite`. -/
def ErrShortWrite : Error := "short write"

/-- The error `tar.Writer.Flush` builds when the current entry still lacks `nb` body
bytes: `fmt.Errorf("archive/tar: missed writing %d bytes", nb)`. -/
def errMissedWriting (nb : Nat) : Error :=
  "archive/tar: missed writing " ++ toString nb ++ " bytes"

/-- The error of the `default` branch of `WriteFile`:
`fmt.Errorf("file type %T is not supported", nd)`; `typeName` is what `%T` prints. -/
def errNotSupported (typeName : String) : Error :=
  "file type " ++ typeName ++ " is not supported"

/-! ## `path.Join` and `path.Clean` of the Go standard library -/

/-- The `lazybuf` of `path.Clean`, kept as the list of bytes written so far in reverse
order (`w` is its length). -/
abbrev LazyBuf := List Char

/-- The backtracking of a `..` element in `path.Clean`:
`out.w--; for out.w > dotdot && out.index(out.w) != '/' { out.w-- }`.
`outRev` is the buffer in reverse, so `out.index(out.w)` after a decrement is the
byte just dropped. -/
def backtrack (dotdot : Nat) : LazyBuf → LazyBuf
  | [] => []
  | c :: rest =>
    if dotdot < rest.length ∧ c ≠ '/' then backtrack dotdot rest else rest

/-- Copy of a real path element in `path.Clean`:
`for ; r < n && path[r] != '/'; r++ { out.append(path[r]) }`.
Returns the buffer and the unread rest of the path. -/
def copyElem : List Char → LazyBuf → LazyBuf × List Char
  | [], out => (out, [])
  | c :: cs, out => if c = '/' then (out, c :: cs) else copyElem cs (c :: out)

/-- The main loop of `path.Clean` (`for r < n { switch ... }`) over the unread rest of
the path, with the output buffer (reversed) and the `dotdot` mark. Every iteration
reads at least one byte, so `fuel` equal to the length of the path is enough. -/
def cleanLoop (rooted : Bool) : Nat → List Char → LazyBuf → Nat → LazyBuf
  | 0, _, out, _ => out
  | _ + 1, [], out, _ => out
  | fuel + 1, c :: rest, out, dotdot =>
    if c = '/' then
      -- empty path element
      cleanLoop rooted fuel rest out dotdot
    else if c = '.' ∧ (rest = [] ∨ rest.head? = some '/') then
      -- . element
      cleanLoop rooted fuel rest out dotdot
    else if c = '.' ∧ rest.head? = some '.' ∧
        (rest.tail = [] ∨ rest.tail.head? = some '/') then
      -- .. element: remove to last /
      if dotdot < out.length then
        -- can backtrack
        cleanLoop rooted fuel rest.tail (backtrack dotdot out) dotdot
      else if rooted = false then
        -- cannot backtrack, but not rooted, so append .. element.
        let out1 := '.' :: '.' :: (if 0 < out.length then '/' :: out else out)
        cleanLoop rooted fuel rest.tail out1 out1.length
      else
        cleanLoop rooted fuel rest.tail out dotdot
    else
      -- real path element: add slash if needed, copy element
      let out1 :=
        if (rooted = true ∧ out.length ≠ 1) ∨ (rooted = false ∧ out.length ≠ 0)
        then '/' :: out else out
      let r := copyElem (c :: rest) out1
      cleanLoop rooted fuel r.2 r.1 dotdot

/-- Go's `path.Clean`: the shortest path name equivalent to `path` by purely lexical
processing. -/
def Clean (path : String) : String :=
  if path = "" then "."
  else
    let rooted : Bool := path.data.head? = some '/'
    let rest := if rooted then path.data.tail else path.data
    let out := cleanLoop rooted rest.length rest (if rooted then ['/'] else [])
      (if rooted then 1 else 0)
    -- Turn empty string into "."
    if out.length = 0 then "." else String.mk out.reverse

/-- The loop of `path.Join` that concatenates the non-empty elements with `/`
between them (`buf` is the buffer built so far). -/
def joinBuf : List String → List Char → List Char
  | [], buf => buf
  | e :: es, buf =>
    if 0 < buf.length ∨ e ≠ "" then
      joinBuf es ((if 0 < buf.length then buf ++ ['/'] else buf) ++ e.data)
    else joinBuf es buf

/-- Go's `path.Join`: joins the elements with slashes, ignoring empty elements, and
cleans the result; all elements empty gives the empty string. -/
def Join (elem : List String) : String :=
  if (elem.map String.length).sum = 0 then ""
  else Clean (String.mk (joinBuf elem []))

/-! ## The node abstraction consumed by the writer -/

/-- Modelled from the spec: the `File` interface is declared outside `tarwriter.go`; the
spec gives a file node `Size() (uint, error)` and a readable byte stream. `size` is what
`Size()` returns, an integer or an error (a theorem that needs a range for the integer
states it); `reads` are the chunks that successive `Read` calls deliver with a nil
error, and `readErr` is the error of the `Read` that ends the stream (`none` for
`io.EOF`). -/
structure FileData where
  size : Except Error Int
  reads : List (List Nat)
  readErr : Option Error

mutual
/-- Modelled from the spec: the interfaces `Node`, `File` and `Directory` and the type
`Symlink` are declared outside `tarwriter.go`; the spec gives a symlink a `Target`
string, a file a size and a byte stream, a directory an iterator over named children.
A value of interface type `Node` is described by what the type switch of `WriteFile`
can see of it: the name `%T` prints for its dynamic type, the `Target` when the dynamic
type is `*Symlink`, its `File` methods when it satisfies `File`, and its `Entries()`
iterator when it satisfies `Directory`. -/
inductive Node where
  | mk (typeName : String) (symlink : Option String) (file : Option FileData)
      (dir : DirFacet)

/-- Modelled from the spec: the `Directory` interface is declared outside
`tarwriter.go`. Whether a node satisfies `Directory`, and the iterator `Entries()`
returns. -/
inductive DirFacet where
  | absent
  | entries (it : Entries)

/-- Modelled from the spec: the iterator `Entries()` returns is declared outside
`tarwriter.go`; the spec gives it as an iterator over (name, node) pairs in a defined
order with a terminal error accessor. `next name node rest` is a successful `Next()`
with `Name()` and `Node()`; `done err` is `Next()` returning false, after which `Err()`
returns `err`. -/
inductive Entries where
  | done (err : Option Error)
  | next (name : String) (node : Node) (rest : Entries)
end

/-- A plain `*Symlink` node with the given `Target`. -/
def Node.symlinkTo (target : String) : Node :=
  .mk "*files.Symlink" (some target) none .absent

/-- A node that satisfies only `File`. -/
def Node.ofFile (f : FileData) : Node :=
  .mk "*files.ReaderFile" none (some f) .absent

/-- A node that satisfies only `Directory`. -/
def Node.ofDir (it : Entries) : Node :=
  .mk "*files.SliceFile" none none (.entries it)

/-- A node that is no `*Symlink` and satisfies neither `File` nor `Directory`. -/
def Node.other (typeName : String) : Node :=
  .mk typeName none none .absent

/-- The iterator that yields the given children in order and then ends with `err`. -/
def Entries.ofList : List (String × Node) → Option Error → Entries
  | [], err => .done err
  | (name, node) :: rest, err => .next name node (Entries.ofList rest err)

/-- A well-behaved file holding exactly the bytes `content`, delivered by one `Read`. -/
def FileData.ofBytes (content : List Nat) : FileData :=
  { size := .ok content.length, reads := [content], readErr := none }

/-- The bytes of an ASCII string. -/
def bytesOf (s : String) : List Nat := s.data.map Char.toNat

/-! ## `archive/tar` -/

/-- The fields of `tar.Header` that the writer sets. `ModTime` is `none` for the zero
`time.Time`, otherwise the clock reading in seconds. -/
structure Header where
  Name : String
  Linkname : String
  Size : Int
  Typeflag : Char
  Mode : Nat
  ModTime : Option Nat
  deriving DecidableEq, Repr

/-- Go's `tar.TypeReg`. -/
def TypeReg : Char := '0'
/-- Go's `tar.TypeLink`. -/
def TypeLink : Char := '1'
/-- Go's `tar.TypeSymlink`. -/
def TypeSymlink : Char := '2'
/-- Go's `tar.TypeChar`. -/
def TypeChar : Char := '3'
/-- Go's `tar.TypeBlock`. -/
def TypeBlock : Char := '4'
/-- Go's `tar.TypeDir`. -/
def TypeDir : Char := '5'
/-- Go's `tar.TypeFifo`. -/
def TypeFifo : Char := '6'

/-- Go's `isHeaderOnlyType` of `archive/tar`: entries of these kinds carry no body. -/
def isHeaderOnlyType (flag : Char) : Bool :=
  flag = TypeLink || flag = TypeSymlink || flag = TypeChar || flag = TypeBlock ||
    flag = TypeDir || flag = TypeFifo

/-- Go's `blockPadding` of `archive/tar`: the bytes needed to pad `offset` to the next
multiple of the 512-byte block size. -/
def blockPadding (offset : Nat) : Nat := (512 - offset % 512) % 512

/-- What happens during a walk, in order: the tracing span calls of `WriteFile` and
the writes that `tar.Writer` hands to the underlying `io.Writer` and that it accepts
(an encoded header, body bytes, zero padding). -/
inductive Event where
  | spanStart (operationName : String)
  | spanTag (key : String) (value : String)
  | spanFinish
  | header (hdr : Header)
  | body (b : List Nat)
  | padding (n : Nat)
  deriving DecidableEq, Repr

/-- The surroundings of a walk. `clock k` is what the `k`-th call of `time.Now()`
returns, in seconds. `sink trace ev` is the error, if any, with which the write `ev`
fails after `trace` has happened: the underlying `io.Writer` failing, or `archive/tar`
being unable to encode the header `ev`. A failed write leaves nothing in the sink. -/
structure Env where
  clock : Nat → Nat
  sink : List Event → Event → Option Error

/-- The `context.Context` handed to `WriteFile`: `cancelledAfter = some k` is a context
that is cancelled once `k` events have happened (`some 0`: cancelled from the start),
`none` one that never is. -/
structure Context where
  cancelledAfter : Option Nat

/-- The state a walk works on: the events so far, the fields of the `tar.Writer`
(`nb` is `curr.logicalRemaining()`, the body bytes the current entry still lacks;
`pad` the padding owed after it; `err` the persistent error) and the number of clock
readings taken. -/
structure State where
  trace : List Event
  nb : Nat
  pad : Nat
  err : Option Error
  clockReads : Nat

/-- The error `archive/tar` returns for a regular-file header with a negative size. -/
def errNegativeSize : Error :=
  "archive/tar: cannot encode header: negative size on header-only type"

/-- Records a tracing call. -/
def State.emit (s : State) (ev : Event) : State :=
  { s with trace := s.trace ++ [ev] }

/-- Go's `time.Now()`: the next clock reading. -/
def timeNow (env : Env) (s : State) : Nat × State :=
  (env.clock s.clockReads, { s with clockReads := s.clockReads + 1 })

/-- Go's `tar.Writer.Flush`: fails with the persistent error, or when the current entry
is not fully written; otherwise writes the padding owed. A write of zero padding
bytes is left out of the trace. -/
def Flush (env : Env) (s : State) : Option Error × State :=
  match s.err with
  | some e => (some e, s)
  | none =>
    if 0 < s.nb then (some (errMissedWriting s.nb), s)
    else if s.pad = 0 then (none, s)
    else
      match env.sink s.trace (.padding s.pad) with
      | some e => (some e, { s with err := some e })
      | none => (none, { s with trace := s.trace ++ [.padding s.pad], pad := 0 })

/-- Go's `tar.Writer.WriteHeader`: flushes the previous entry, then encodes and writes
the header and starts the entry body (header-only kinds have none). -/
def WriteHeader (env : Env) (hdr : Header) (s : State) : Option Error × State :=
  match Flush env s with
  | (some e, s1) => (some e, s1)
  | (none, s1) =>
    if isHeaderOnlyType hdr.Typeflag = false ∧ hdr.Size < 0 then (some errNegativeSize, s1)
    else
      match env.sink s1.trace (.header hdr) with
      | some e => (some e, { s1 with err := some e })
      | none =>
        let size := if isHeaderOnlyType hdr.Typeflag then 0 else hdr.Size.toNat
        (none, { s1 with trace := s1.trace ++ [.header hdr], nb := size,
                         pad := blockPadding size })

/-- Go's `tar.Writer.Write`: writes at most the bytes the current entry still lacks and
reports `ErrWriteTooLong` when given more. Returns the count written. -/
def Write (env : Env) (b : List Nat) (s : State) : Nat × Option Error × State :=
  match s.err with
  | some e => (0, some e, s)
  | none =>
    let overwrite : Bool := s.nb < b.length
    let b1 := if overwrite then b.take s.nb else b
    if 0 < b1.length then
      match env.sink s.trace (.body b1) with
      | some e => (0, some e, { s with err := some e })
      | none =>
        let s1 := { s with trace := s.trace ++ [.body b1], nb := s.nb - b1.length }
        (b1.length, if overwrite then some ErrWriteTooLong else none, s1)
    else (0, if overwrite then some ErrWriteTooLong else none, s)

/-- Go's `io.Copy(dst, src)` into the `tar.Writer` from a reader that delivers `reads`
and then ends with `readErr` (`none` is `io.EOF`, which `io.Copy` does not report). -/
def ioCopy (env : Env) : List (List Nat) → Option Error → State → Option Error × State
  | [], readErr, s => (readErr, s)
  | chunk :: rest, readErr, s =>
    if 0 < chunk.length then
      match Write env chunk s with
      | (_, some ew, s1) => (some ew, s1)
      | (nw, none, s1) =>
        if chunk.length ≠ nw then (some ErrShortWrite, s1) else ioCopy env rest readErr s1
    else ioCopy env rest readErr s

/-! ## `tarwriter.go` -/

/-- Go's conversion `uint64(size)`. -/
def toUint64 (v : Int) : Nat := (v % 2 ^ 64).toNat

/-- Go's conversion `int64(size)` of an unsigned 64-bit value. -/
def toInt64 (n : Nat) : Int :=
  if n % 2 ^ 64 < 2 ^ 63 then ((n % 2 ^ 64 : Nat) : Int) else ((n % 2 ^ 64 : Nat) : Int) - 2 ^ 64

/-- The state behind `NewTarWriter(w)`: a fresh `tar.Writer` and nothing written. -/
def NewTarWriter : State :=
  { trace := [], nb := 0, pad := 0, err := none, clockReads := 0 }

/-- Source `writeDirHeader`. -/
def writeDirHeader (env : Env) (fpath : String) (s : State) : Option Error × State :=
  let now := timeNow env s
  WriteHeader env
    { Name := fpath, Typeflag := TypeDir, Mode := 0o777, ModTime := some now.1,
      Size := 0, Linkname := "" } now.2

/-- Source `writeFileHeader`. -/
def writeFileHeader (env : Env) (fpath : String) (size : Nat) (s : State) :
    Option Error × State :=
  let now := timeNow env s
  WriteHeader env
    { Name := fpath, Size := toInt64 size, Typeflag := TypeReg, Mode := 0o644,
      ModTime := some now.1, Linkname := "" } now.2

/-- Source `writeSymlinkHeader`. -/
def writeSymlinkHeader (env : Env) (target fpath : String) (s : State) :
    Option Error × State :=
  WriteHeader env
    { Name := fpath, Linkname := target, Mode := 0o777, Typeflag := TypeSymlink,
      Size := 0, ModTime := none } s

/-- Source `TarWriter.writeFile`. The result of `Flush` is dropped, as in the source. -/
def writeFile (env : Env) (f : FileData) (fpath : String) (s : State) :
    Option Error × State :=
  match f.size with
  | .error err => (some err, s)
  | .ok size =>
    match writeFileHeader env fpath (toUint64 size) s with
    | (some err, s1) => (some err, s1)
    | (none, s1) =>
      match ioCopy env f.reads f.readErr s1 with
      | (some err, s2) => (some err, s2)
      | (none, s2) => (none, (Flush env s2).2)

mutual
/-- Source `TarWriter.WriteFile`: the tracing span, then the type switch in the order
`*Symlink`, `File`, `Directory`, `default`. The `Directory` case is the body of
`writeDir` (see `writeDir` and `WriteFile_dir`). -/
def WriteFile (env : Env) (ctx : Context) : Node → String → State → Option Error × State
  | .mk typeName symlink file dir, fpath, s =>
    let s1 := (s.emit (.spanStart "tar write file")).emit (.spanTag "path" fpath)
    let r : Option Error × State :=
      match symlink with
      | some target =>
        writeSymlinkHeader env target fpath (s1.emit (.spanTag "type" "symlink"))
      | none =>
        match file with
        | some f => writeFile env f fpath (s1.emit (.spanTag "type" "file"))
        | none =>
          match dir with
          | .entries it =>
            match writeDirHeader env fpath (s1.emit (.spanTag "type" "directory")) with
            | (some err, s2) => (some err, s2)
            | (none, s2) => iterate env ctx it fpath s2
          | .absent => (some (errNotSupported typeName), s1)
    (r.1, r.2.emit .spanFinish)

/-- The loop of source `writeDir`: `for it.Next() { ... }` and `return it.Err()`. -/
def iterate (env : Env) (ctx : Context) : Entries → String → State → Option Error × State
  | .done err, _, s => (err, s)
  | .next name node rest, fpath, s =>
    match WriteFile env ctx node (Join [fpath, name]) s with
    | (some err, s1) => (some err, s1)
    | (none, s1) => iterate env ctx rest fpath s1
end

/-- Source `TarWriter.writeDir`. -/
def writeDir (env : Env) (ctx : Context) (it : Entries) (fpath : String) (s : State) :
    Option Error × State :=
  match writeDirHeader env fpath s with
  | (some err, s1) => (some err, s1)
  | (none, s1) => iterate env ctx it fpath s1

/-! ## Reading the sink back -/

/-- The headers written to the sink, in order. -/
def sinkHeaders (trace : List Event) : List Header :=
  trace.filterMap fun ev => match ev with
    | .header hdr => some hdr
    | _ => none

/-- The path and kind of every entry in the sink, in order. -/
def sinkKinds (trace : List Event) : List (String × Char) :=
  (sinkHeaders trace).map fun hdr => (hdr.Name, hdr.Typeflag)

mutual
/-- The pre-order listing of a tree walked from path `p`, as (path, kind): a node's
own entry first, then the listings of its children one after the other in iterator
order. The kind of a node is the first of `*Symlink`, `File`, `Directory` it is. -/
def preorder : Node → String → List (String × Char)
  | .mk _ (some _) _ _, p => [(p, TypeSymlink)]
  | .mk _ none (some _) _, p => [(p, TypeReg)]
  | .mk _ none none (.entries it), p => (p, TypeDir) :: preorderChildren it p
  | .mk _ none none .absent, _ => []

/-- The listings of the children an iterator yields under directory path `p`. -/
def preorderChildren : Entries → String → List (String × Char)
  | .done _, _ => []
  | .next name node rest, p => preorder node (Join [p, name]) ++ preorderChildren rest p
end

/-- The children an iterator yields, in order. -/
def Entries.children : Entries → List (String × Node)
  | .done _ => []
  | .next name node rest => (name, node) :: rest.children

/-! ## Concrete surroundings and trees -/

/-- A clock that starts at 1000 and a sink that accepts every write. -/
def envOK : Env := { clock := fun k => 1000 + k, sink := fun _ _ => none }

/-- A context that is never cancelled. -/
def background : Context := { cancelledAfter := none }

/-- The tree `Directory{"a": File("hi"), "b": Directory{}, "c": Symlink to "a"}`. -/
def scenarioRoot : Node :=
  .ofDir (.ofList [("a", .ofFile (.ofBytes (bytesOf "hi"))), ("b", .ofDir (.done none)),
    ("c", .symlinkTo "a")] none)

/-- The iterator of the directory `{"d": Directory{"x": Symlink to "y"}, "e": File("")}`. -/
def nestedEntries : Entries :=
  .ofList [("d", .ofDir (.ofList [("x", .symlinkTo "y")] none)),
    ("e", .ofFile (.ofBytes []))] none

/-! ## Plain paths -/

/-- A plain path element: not empty, without a slash, and neither `.` nor `..`. -/
def plainElem (e : List Char) : Prop :=
  e ≠ [] ∧ '/' ∉ e ∧ e ≠ ['.'] ∧ e ≠ ['.', '.']

/-- The elements with a single slash between neighbours. -/
def slashJoin : List (List Char) → List Char
  | [] => []
  | [e] => e
  | e :: e2 :: es => e ++ '/' :: slashJoin (e2 :: es)

/-- A plain path: one or more plain elements separated by single slashes, with or
without a leading slash. -/
def plainPath (p : String) : Prop :=
  ∃ (rooted : Bool) (es : List (List Char)), es ≠ [] ∧ (∀ e ∈ es, plainElem e) ∧
    p.data = (if rooted then ['/'] else []) ++ slashJoin es

/-- The body bytes written to the sink, in order. -/
def sinkBody (trace : List Event) : List Nat :=
  (trace.map fun ev => match ev with
    | .body b => b
    | _ => []).flatten

/-- A file that declares 2 bytes and whose stream ends after 1. -/
def shortFile : FileData := { size := .ok 2, reads := [[104]], readErr := none }

/-- A file that declares 1 byte and whose stream delivers 2. -/
def longFile : FileData := { size := .ok 1, reads := [[104, 105]], readErr := none }

/-- A sink that accepts headers and body bytes and fails on every write of padding. -/
def envPadFails : Env :=
  { clock := fun k => 1000 + k,
    sink := fun _ ev => match ev with
      | .padding _ => some "disk full"
      | _ => none }

mutual
/-- Whether the walk of a tree meets a node that is neither `*Symlink`, `File` nor
`Directory`. The children of a node count only when it is walked as a directory. -/
def Node.hasUnsupported : Node → Bool
  | .mk _ (some _) _ _ => false
  | .mk _ none (some _) _ => false
  | .mk _ none none (.entries it) => it.hasUnsupported
  | .mk _ none none .absent => true

/-- Whether one of the children an iterator yields has such a node in its tree. -/
def Entries.hasUnsupported : Entries → Bool
  | .done _ => false
  | .next _ node rest => node.hasUnsupported || rest.hasUnsupported
end

/-- A directory with a symlink, then a directory holding a node of an unknown kind, then
a file. -/
def treeWithUnknown : Node :=
  .ofDir (.ofList [("l", .symlinkTo "t"),
    ("d", .ofDir (.ofList [("u", .other "*files.Unknown"), ("v", .symlinkTo "w")] none)),
    ("f", .ofFile (.ofBytes []))] none)

/-! ## Well-behaved trees and their records -/

/-- The number of bytes the stream of a file delivers. -/
def FileData.streamLength (f : FileData) : Nat := (f.reads.map List.length).sum

/-- The value `Size()` returns (0 when it fails). -/
def FileData.declaredSize (f : FileData) : Int :=
  match f.size with
  | .ok size => size
  | .error _ => 0

/-- A well-behaved file: `Size()` succeeds with the length of the stream, a value below
`2^63`, and the stream ends with `io.EOF`. -/
def FileData.wellBehaved (f : FileData) : Prop :=
  f.size = .ok (f.streamLength : Int) ∧ f.readErr = none ∧ f.streamLength < 2 ^ 63

mutual
/-- A tree of `*Symlink`, `File` and `Directory` nodes whose files are well-behaved and
whose iterators end without an error. -/
def Node.wellBehaved : Node → Prop
  | .mk _ (some _) _ _ => True
  | .mk _ none (some f) _ => f.wellBehaved
  | .mk _ none none (.entries it) => it.wellBehaved
  | .mk _ none none .absent => False

/-- The children an iterator yields are well-behaved trees and it ends without error. -/
def Entries.wellBehaved : Entries → Prop
  | .done err => err = none
  | .next _ node rest => node.wellBehaved ∧ rest.wellBehaved
end

/-- What a reader of the archive learns of an entry: path, kind, size, link target. -/
abbrev Record := String × Char × Int × String

/-- The record a header is read back as. -/
def Header.record (hdr : Header) : Record :=
  (hdr.Name, hdr.Typeflag, hdr.Size, hdr.Linkname)

/-- The entries in the sink, read back as records. -/
def sinkRecords (trace : List Event) : List Record :=
  (sinkHeaders trace).map Header.record

mutual
/-- One record per node of the tree walked from path `p`: the node's walk path, its
kind, its size (the file's size, 0 otherwise) and, for a symlink, its target. -/
def records : Node → String → List Record
  | .mk _ (some target) _ _, p => [(p, TypeSymlink, 0, target)]
  | .mk _ none (some f) _, p => [(p, TypeReg, f.declaredSize, "")]
  | .mk _ none none (.entries it), p => (p, TypeDir, 0, "") :: recordsChildren it p
  | .mk _ none none .absent, _ => []

/-- The records of the children an iterator yields under directory path `p`. -/
def recordsChildren : Entries → String → List Record
  | .done _, _ => []
  | .next name node rest, p => records node (Join [p, name]) ++ recordsChildren rest p
end

/-- The body bytes that follow a header: those written before the next header. -/
def bodyAfter : List Event → List Nat
  | [] => []
  | .header _ :: _ => []
  | .body b :: rest => b ++ bodyAfter rest
  | _ :: rest => bodyAfter rest

/-- The entries of the sink read back: the record of each header with its body. -/
def sinkEntries : List Event → List (Record × List Nat)
  | [] => []
  | .header hdr :: rest => (hdr.record, bodyAfter rest) :: sinkEntries rest
  | _ :: rest => sinkEntries rest

/-- A directory iterator: a symlink `l`, a node `u` of an unknown kind, a file `f`. -/
def childrenWithUnknown : List (String × Node) :=
  [("l", .symlinkTo "t"), ("u", .other "*files.Unknown"), ("f", .ofFile (.ofBytes []))]

/-! ## More concrete surroundings and nodes -/

/-- A context that is cancelled before the walk starts. -/
def cancelledCtx : Context := { cancelledAfter := some 0 }

/-- A file whose `Size()` fails; its stream would deliver one byte. -/
def brokenSizeFile : FileData :=
  { size := .error "stat failed", reads := [[104]], readErr := none }

/-- A file whose `Size()` returns `2^63`, a value that a 64-bit unsigned integer can
hold; its stream is empty. -/
def wrappingFile : FileData :=
  { size := .ok 9223372036854775808, reads := [], readErr := none }

/-- A file whose `Size()` returns `2^63 - 1`; its stream is empty. -/
def hugeFile : FileData :=
  { size := .ok 9223372036854775807, reads := [], readErr := none }

/-! ## Bytes in the sink -/

/-- The bytes a write puts into the underlying writer. `blocks hdr` is the number of
512-byte blocks in which `archive/tar` encodes the header: one for a USTAR header, more
when a PAX or GNU extension is needed. Tracing calls write nothing. -/
def eventBytes (blocks : Header → Nat) : Event → Nat
  | .header hdr => 512 * blocks hdr
  | .body b => b.length
  | .padding n => n
  | _ => 0

/-- The number of bytes a trace has put into the underlying writer. -/
def sinkBytes (blocks : Header → Nat) (trace : List Event) : Nat :=
  (trace.map (eventBytes blocks)).sum

/-! ## Visits of a walk -/

/-- The call `WriteFile nd1 p1 s1` is made by the walk that `WriteFile nd p s` starts:
it is that call itself (`here`), or `nd` is walked as a directory whose header is
written, whose iterator first yields children `pre` that are all written with success
and then a child whose walk makes the call (`child`). -/
inductive Visits (env : Env) (ctx : Context) :
    Node → String → State → Node → String → State → Prop where
  | here (nd : Node) (p : String) (s : State) : Visits env ctx nd p s nd p s
  | child (tn : String) (pre : List (String × Node)) (name : String) (c : Node)
      (rest : List (String × Node)) (err : Option Error) (p : String) (s s0 s1 : State)
      (nd1 : Node) (p1 : String) (s2 : State)
      (hhdr : writeDirHeader env p (((s.emit (.spanStart "tar write file")).emit
        (.spanTag "path" p)).emit (.spanTag "type" "directory")) = (none, s0))
      (hpre : iterate env ctx (.ofList pre none) p s0 = (none, s1))
      (hsub : Visits env ctx c (Join [p, name]) s1 nd1 p1 s2) :
      Visits env ctx (.mk tn none none (.entries (.ofList (pre ++ (name, c) :: rest) err)))
        p s nd1 p1 s2

/-- A directory holding a file `f` whose `Size()` fails and then a symlink `m`. -/
def innerDir : Node :=
  .mk "dir" none none (.entries (.ofList
    ([] ++ ("f", Node.ofFile brokenSizeFile) :: [("m", Node.symlinkTo "t")]) none))

/-- A directory holding a symlink `l` and then the directory `d` above. -/
def topDir : Node :=
  .mk "dir" none none (.entries (.ofList
    ([("l", Node.symlinkTo "t")] ++ ("d", innerDir) :: []) none))

/-- The state of the walk of `topDir` at `top` on a fresh writer once the header of
`top` is written. -/
def topState0 : State :=
  (writeDirHeader envOK "top" (((NewTarWriter.emit (.spanStart "tar write file")).emit
    (.spanTag "path" "top")).emit (.spanTag "type" "directory"))).2

/-- The state of that walk once the symlink `l` is written. -/
def topState1 : State :=
  (iterate envOK background (.ofList [("l", .symlinkTo "t")] none) "top" topState0).2

/-- The state of that walk once the header of `top/d` is written. -/
def innerState0 : State :=
  (writeDirHeader envOK (Join ["top", "d"])
    (((topState1.emit (.spanStart "tar write file")).emit
      (.spanTag "path" (Join ["top", "d"]))).emit (.spanTag "type" "directory"))).2

/-! ## Modification times -/

/-- Whether a header is stamped as the writer stamps it: a symlink header has no
modification time, any other header has the clock reading number `k` for some `k` from
`lo` up to but not including `hi`. -/
def stampedWithin (env : Env) (lo hi : Nat) (hdr : Header) : Prop :=
  (hdr.Typeflag = TypeSymlink ∧ hdr.ModTime = none) ∨
    (hdr.Typeflag ≠ TypeSymlink ∧
      ∃ k, lo ≤ k ∧ k < hi ∧ hdr.ModTime = some (env.clock k))

/-- The directory `{"d": Directory{"f": File("h")}}`: its last node is a one-byte file
two levels down. -/
def treeEndingInFile : Node :=
  .ofDir (.ofList [("d", .ofDir (.ofList [("f", .ofFile (.ofBytes [104]))] none))] none)

/-- The directory `{"d": Directory{"f": File("h"), "m": Symlink to "t"}}`: the same
one-byte file, followed by a symlink. -/
def treeFileThenSymlink : Node :=
  .ofDir (.ofList [("d", .ofDir (.ofList [("f", .ofFile (.ofBytes [104])),
    ("m", .symlinkTo "t")] none))] none)

/-! # Properties -/

/-! ## Induction over trees -/

/-- Simultaneous induction over nodes and iterators. -/
theorem tree_induction (P : Node → Prop) (Q : Entries → Prop)
    (hleaf : ∀ tn sl f, P (.mk tn sl f .absent))
    (hdir : ∀ tn sl f it, Q it → P (.mk tn sl f (.entries it)))
    (hdone : ∀ err, Q (.done err))
    (hnext : ∀ name node rest, P node → Q rest → Q (.next name node rest)) :
    (∀ nd, P nd) ∧ (∀ it, Q it) := by
  refine ⟨fun nd => ?_, fun it => ?_⟩
  · exact @Node.rec P
      (fun d => match d with | .absent => True | .entries it => Q it) Q
      (fun tn sl f d hd => by
        cases d with
        | absent => exact hleaf tn sl f
        | entries it => exact hdir tn sl f it hd)
      trivial (fun it h => h) hdone hnext nd
  · exact @Entries.rec P
      (fun d => match d with | .absent => True | .entries it => Q it) Q
      (fun tn sl f d hd => by
        cases d with
        | absent => exact hleaf tn sl f
        | entries it => exact hdir tn sl f it hd)
      trivial (fun it h => h) hdone hnext it

/-! ## The sink headers across the writer's primitives -/

@[simp] theorem sinkHeaders_nil : sinkHeaders [] = [] := rfl

@[simp] theorem sinkHeaders_append (t u : List Event) :
    sinkHeaders (t ++ u) = sinkHeaders t ++ sinkHeaders u := by
  simp [sinkHeaders, List.filterMap_append]

@[simp] theorem sinkHeaders_cons_header (hdr : Header) (t : List Event) :
    sinkHeaders (.header hdr :: t) = hdr :: sinkHeaders t := rfl

@[simp] theorem sinkHeaders_cons_body (b : List Nat) (t : List Event) :
    sinkHeaders (.body b :: t) = sinkHeaders t := rfl

@[simp] theorem sinkHeaders_cons_padding (n : Nat) (t : List Event) :
    sinkHeaders (.padding n :: t) = sinkHeaders t := rfl

@[simp] theorem sinkHeaders_cons_spanStart (o : String) (t : List Event) :
    sinkHeaders (.spanStart o :: t) = sinkHeaders t := rfl

@[simp] theorem sinkHeaders_cons_spanTag (k v : String) (t : List Event) :
    sinkHeaders (.spanTag k v :: t) = sinkHeaders t := rfl

@[simp] theorem sinkHeaders_cons_spanFinish (t : List Event) :
    sinkHeaders (.spanFinish :: t) = sinkHeaders t := rfl

theorem Flush_sinkHeaders (env : Env) (s : State) :
    sinkHeaders (Flush env s).2.trace = sinkHeaders s.trace := by
  unfold Flush
  split
  · rfl
  · split
    · rfl
    · split
      · rfl
      · split <;> simp

theorem WriteHeader_sinkHeaders (env : Env) (hdr : Header) (s s1 : State)
    (h : WriteHeader env hdr s = (none, s1)) :
    sinkHeaders s1.trace = sinkHeaders s.trace ++ [hdr] := by
  unfold WriteHeader at h
  have hf := Flush_sinkHeaders env s
  split at h
  · simp at h
  · rename_i s2 hfl
    rw [hfl] at hf
    split at h
    · simp at h
    · split at h
      · simp at h
      · simp only [Prod.mk.injEq, true_and] at h
        subst h
        simp [hf]

theorem Write_sinkHeaders (env : Env) (b : List Nat) (s : State) :
    sinkHeaders (Write env b s).2.2.trace = sinkHeaders s.trace := by
  unfold Write
  split
  · rfl
  · simp only []
    split_ifs <;> (try split) <;> simp

theorem ioCopy_sinkHeaders (env : Env) (reads : List (List Nat)) (readErr : Option Error)
    (s : State) : sinkHeaders (ioCopy env reads readErr s).2.trace = sinkHeaders s.trace := by
  induction reads generalizing s with
  | nil => rfl
  | cons chunk rest ih =>
    unfold ioCopy
    have hw := Write_sinkHeaders env chunk s
    split
    · split
      · rename_i hw1
        rw [hw1] at hw
        exact hw
      · rename_i hw1
        rw [hw1] at hw
        split
        · exact hw
        · rw [ih, hw]
    · exact ih s

theorem writeSymlinkHeader_sinkHeaders (env : Env) (target fpath : String) (s s1 : State)
    (h : writeSymlinkHeader env target fpath s = (none, s1)) :
    sinkHeaders s1.trace = sinkHeaders s.trace ++
      [{ Name := fpath, Linkname := target, Mode := 0o777, Typeflag := TypeSymlink,
         Size := 0, ModTime := none }] :=
  WriteHeader_sinkHeaders env _ s s1 h

theorem writeDirHeader_sinkHeaders (env : Env) (fpath : String) (s s1 : State)
    (h : writeDirHeader env fpath s = (none, s1)) :
    sinkHeaders s1.trace = sinkHeaders s.trace ++
      [{ Name := fpath, Typeflag := TypeDir, Mode := 0o777,
         ModTime := some (env.clock s.clockReads), Size := 0, Linkname := "" }] :=
  WriteHeader_sinkHeaders env _ (timeNow env s).2 s1 h

theorem writeFileHeader_sinkHeaders (env : Env) (fpath : String) (size : Nat) (s s1 : State)
    (h : writeFileHeader env fpath size s = (none, s1)) :
    sinkHeaders s1.trace = sinkHeaders s.trace ++
      [{ Name := fpath, Size := toInt64 size, Typeflag := TypeReg, Mode := 0o644,
         ModTime := some (env.clock s.clockReads), Linkname := "" }] :=
  WriteHeader_sinkHeaders env _ (timeNow env s).2 s1 h

/-- A successful `writeFile` puts exactly one header in the sink, the file's. -/
theorem writeFile_sinkHeaders (env : Env) (f : FileData) (fpath : String) (s s1 : State)
    (h : writeFile env f fpath s = (none, s1)) :
    ∃ size, f.size = .ok size ∧
      sinkHeaders s1.trace = sinkHeaders s.trace ++
        [{ Name := fpath, Size := toInt64 (toUint64 size), Typeflag := TypeReg,
           Mode := 0o644, ModTime := some (env.clock s.clockReads), Linkname := "" }] := by
  unfold writeFile at h
  split at h
  · simp at h
  · rename_i size hsize
    refine ⟨size, hsize, ?_⟩
    split at h
    · simp at h
    · rename_i s2 hh
      have h2 := writeFileHeader_sinkHeaders env fpath _ s s2 hh
      have hc := ioCopy_sinkHeaders env f.reads f.readErr s2
      split at h
      · simp at h
      · rename_i s3 hcopy
        rw [hcopy] at hc
        simp only [Prod.mk.injEq, true_and] at h
        rw [← h, Flush_sinkHeaders, hc, h2]

@[simp] theorem sinkKinds_append (t u : List Event) :
    sinkKinds (t ++ u) = sinkKinds t ++ sinkKinds u := by
  simp [sinkKinds]

theorem sinkKinds_of_sinkHeaders (t u : List Event) (hdr : Header)
    (h : sinkHeaders u = sinkHeaders t ++ [hdr]) :
    sinkKinds u = sinkKinds t ++ [(hdr.Name, hdr.Typeflag)] := by
  simp [sinkKinds, h]

@[simp] theorem emit_trace (s : State) (ev : Event) : (s.emit ev).trace = s.trace ++ [ev] :=
  rfl

@[simp] theorem sinkKinds_nil : sinkKinds [] = [] := rfl

@[simp] theorem sinkKinds_cons_header (hdr : Header) (t : List Event) :
    sinkKinds (.header hdr :: t) = (hdr.Name, hdr.Typeflag) :: sinkKinds t := rfl

@[simp] theorem sinkKinds_cons_body (b : List Nat) (t : List Event) :
    sinkKinds (.body b :: t) = sinkKinds t := rfl

@[simp] theorem sinkKinds_cons_padding (n : Nat) (t : List Event) :
    sinkKinds (.padding n :: t) = sinkKinds t := rfl

@[simp] theorem sinkKinds_cons_spanStart (o : String) (t : List Event) :
    sinkKinds (.spanStart o :: t) = sinkKinds t := rfl

@[simp] theorem sinkKinds_cons_spanTag (k v : String) (t : List Event) :
    sinkKinds (.spanTag k v :: t) = sinkKinds t := rfl

@[simp] theorem sinkKinds_cons_spanFinish (t : List Event) :
    sinkKinds (.spanFinish :: t) = sinkKinds t := rfl

/-- A successful walk lists the tree in pre-order. -/
theorem walk_sinkKinds (env : Env) (ctx : Context) :
    (∀ nd p s s1, WriteFile env ctx nd p s = (none, s1) →
      sinkKinds s1.trace = sinkKinds s.trace ++ preorder nd p) ∧
    (∀ it p s s1, iterate env ctx it p s = (none, s1) →
      sinkKinds s1.trace = sinkKinds s.trace ++ preorderChildren it p) := by
  apply tree_induction
  · intro tn sl f p s s1 h
    unfold WriteFile at h
    simp only [Prod.mk.injEq] at h
    obtain ⟨h1, h2⟩ := h
    subst h2
    rw [emit_trace, sinkKinds_append, sinkKinds_cons_spanFinish, sinkKinds_nil,
      List.append_nil]
    cases sl with
    | some target =>
      simp only at h1 ⊢
      generalize hr : writeSymlinkHeader env target p _ = r at h1 ⊢
      obtain ⟨e, s2⟩ := r
      simp only at h1
      subst h1
      have := writeSymlinkHeader_sinkHeaders env _ _ _ _ hr
      rw [sinkKinds_of_sinkHeaders _ _ _ this]
      simp [preorder]
    | none =>
      cases f with
      | some fd =>
        simp only at h1 ⊢
        generalize hr : writeFile env fd p _ = r at h1 ⊢
        obtain ⟨e, s2⟩ := r
        simp only at h1
        subst h1
        obtain ⟨size, _, this⟩ := writeFile_sinkHeaders env _ _ _ _ hr
        rw [sinkKinds_of_sinkHeaders _ _ _ this]
        simp [preorder]
      | none => simp at h1
  · intro tn sl f it ih p s s1 h
    unfold WriteFile at h
    simp only [Prod.mk.injEq] at h
    obtain ⟨h1, h2⟩ := h
    subst h2
    rw [emit_trace, sinkKinds_append, sinkKinds_cons_spanFinish, sinkKinds_nil,
      List.append_nil]
    cases sl with
    | some target =>
      simp only at h1 ⊢
      generalize hr : writeSymlinkHeader env target p _ = r at h1 ⊢
      obtain ⟨e, s2⟩ := r
      simp only at h1
      subst h1
      have := writeSymlinkHeader_sinkHeaders env _ _ _ _ hr
      rw [sinkKinds_of_sinkHeaders _ _ _ this]
      simp [preorder]
    | none =>
      cases f with
      | some fd =>
        simp only at h1 ⊢
        generalize hr : writeFile env fd p _ = r at h1 ⊢
        obtain ⟨e, s2⟩ := r
        simp only at h1
        subst h1
        obtain ⟨size, _, this⟩ := writeFile_sinkHeaders env _ _ _ _ hr
        rw [sinkKinds_of_sinkHeaders _ _ _ this]
        simp [preorder]
      | none =>
        simp only at h1 ⊢
        generalize hr : writeDirHeader env p _ = r at h1 ⊢
        obtain ⟨e, s2⟩ := r
        cases e with
        | some e => simp at h1
        | none =>
          simp only at h1 ⊢
          generalize hr2 : iterate env ctx it p s2 = r2 at h1 ⊢
          obtain ⟨e2, s3⟩ := r2
          simp only at h1
          subst h1
          rw [ih p s2 s3 hr2]
          have := writeDirHeader_sinkHeaders env _ _ _ hr
          rw [sinkKinds_of_sinkHeaders _ _ _ this]
          simp [preorder]
  · intro err p s s1 h
    unfold iterate at h
    simp only [Prod.mk.injEq] at h
    obtain ⟨_, h2⟩ := h
    subst h2
    simp [preorderChildren]
  · intro name node rest ihn ihr p s s1 h
    unfold iterate at h
    generalize hr : WriteFile env ctx node (Join [p, name]) s = r at h
    obtain ⟨e, s2⟩ := r
    cases e with
    | some e => simp at h
    | none =>
      simp only at h
      rw [ihr p s2 s1 h, ihn _ s s2 hr]
      simp [preorderChildren]

theorem preorderChildren_eq (it : Entries) (p : String) :
    preorderChildren it p =
      (it.children.map fun nc => preorder nc.2 (Join [p, nc.1])).flatten := by
  refine (tree_induction (fun _ => True) (fun it => preorderChildren it p =
    (it.children.map fun nc => preorder nc.2 (Join [p, nc.1])).flatten) ?_ ?_ ?_ ?_).2 it
  · intros; trivial
  · intros; trivial
  · intro err
    simp [preorderChildren, Entries.children]
  · intro name node rest _ ih
    simp [preorderChildren, Entries.children, ih]

/-- C1: a successful `WriteFile` on a directory writes the directory's own entry first
and then, for each child in the order the iterator yields them, the whole pre-order
listing of that child's subtree, one child after the other. -/
theorem directory_written_in_preorder (env : Env) (ctx : Context) (tn : String)
    (it : Entries) (p : String) (s s1 : State)
    (h : WriteFile env ctx (.mk tn none none (.entries it)) p s = (none, s1)) :
    sinkKinds s1.trace = sinkKinds s.trace ++
      (p, TypeDir) :: (it.children.map fun nc => preorder nc.2 (Join [p, nc.1])).flatten := by
  rw [(walk_sinkKinds env ctx).1 _ p s s1 h, preorder, preorderChildren_eq]

theorem directory_written_in_preorder_witness :
    WriteFile envOK background (.mk "dir" none none (.entries nestedEntries)) "top"
        NewTarWriter =
        (none, (WriteFile envOK background (.mk "dir" none none (.entries nestedEntries))
          "top" NewTarWriter).2) ∧
      sinkKinds (WriteFile envOK background (.mk "dir" none none (.entries nestedEntries))
          "top" NewTarWriter).2.trace =
        [("top", TypeDir), ("top/d", TypeDir), ("top/d/x", TypeSymlink), ("top/e", TypeReg)] :=
  ⟨rfl, (directory_written_in_preorder envOK background "dir" nestedEntries "top"
    NewTarWriter (WriteFile envOK background (.mk "dir" none none (.entries nestedEntries))
      "top" NewTarWriter).2 rfl).trans (by decide)⟩

/-! ## The trace only grows -/

theorem Flush_trace_grows (env : Env) (s : State) : s.trace <+: (Flush env s).2.trace := by
  unfold Flush
  repeat' split
  all_goals simp

theorem WriteHeader_trace_grows (env : Env) (hdr : Header) (s : State) :
    s.trace <+: (WriteHeader env hdr s).2.trace := by
  unfold WriteHeader
  have hf := Flush_trace_grows env s
  split
  · rename_i hfl
    rw [hfl] at hf
    exact hf
  · rename_i s1 hfl
    rw [hfl] at hf
    repeat' split
    all_goals first
      | exact hf
      | exact hf.trans (List.prefix_append _ _)

theorem Write_trace_grows (env : Env) (b : List Nat) (s : State) :
    s.trace <+: (Write env b s).2.2.trace := by
  unfold Write
  split
  · exact List.prefix_refl _
  · simp only []
    split_ifs <;> (try split) <;> simp

theorem ioCopy_trace_grows (env : Env) (reads : List (List Nat)) (readErr : Option Error)
    (s : State) : s.trace <+: (ioCopy env reads readErr s).2.trace := by
  induction reads generalizing s with
  | nil => exact List.prefix_refl _
  | cons chunk rest ih =>
    unfold ioCopy
    have hw := Write_trace_grows env chunk s
    split
    · split
      · rename_i hw1
        rw [hw1] at hw
        exact hw
      · rename_i hw1
        rw [hw1] at hw
        split
        · exact hw
        · exact hw.trans (ih _)
    · exact ih s

theorem writeFile_trace_grows (env : Env) (f : FileData) (fpath : String) (s : State) :
    s.trace <+: (writeFile env f fpath s).2.trace := by
  unfold writeFile
  split
  · exact List.prefix_refl _
  · have h1 := WriteHeader_trace_grows env
      { Name := fpath, Size := toInt64 (toUint64 ‹Int›), Typeflag := TypeReg, Mode := 0o644,
        ModTime := some (timeNow env s).1, Linkname := "" } (timeNow env s).2
    split
    · rename_i hh
      unfold writeFileHeader at hh
      rw [hh] at h1
      exact h1
    · rename_i s1 hh
      unfold writeFileHeader at hh
      rw [hh] at h1
      have h2 := ioCopy_trace_grows env f.reads f.readErr s1
      split
      · rename_i hc
        rw [hc] at h2
        exact h1.trans h2
      · rename_i s2 hc
        rw [hc] at h2
        exact (h1.trans h2).trans (Flush_trace_grows env s2)

theorem writeSymlinkHeader_trace_grows (env : Env) (target fpath : String) (s : State) :
    s.trace <+: (writeSymlinkHeader env target fpath s).2.trace :=
  WriteHeader_trace_grows env _ s

theorem writeDirHeader_trace_grows (env : Env) (fpath : String) (s : State) :
    s.trace <+: (writeDirHeader env fpath s).2.trace :=
  WriteHeader_trace_grows env _ (timeNow env s).2

theorem span_grows (s : State) (a b c : Event) :
    s.trace ++ [a, b] <+: (((s.emit a).emit b).emit c).trace :=
  ⟨[c], by simp⟩

/-- The events of a walk are added after those already there; none of these is
changed or removed. Every visit starts with its span and the path tag. -/
theorem walk_trace_grows (env : Env) (ctx : Context) :
    (∀ nd p s, s.trace ++ [.spanStart "tar write file", .spanTag "path" p] <+:
      (WriteFile env ctx nd p s).2.trace) ∧
    (∀ it p s, s.trace <+: (iterate env ctx it p s).2.trace) := by
  apply tree_induction
  · intro tn sl f p s
    unfold WriteFile
    simp only []
    refine List.IsPrefix.trans ?_ (List.prefix_append _ [Event.spanFinish])
    cases sl with
    | some target =>
      exact (span_grows s _ _ _).trans (writeSymlinkHeader_trace_grows env _ _ _)
    | none =>
      cases f with
      | some fd => exact (span_grows s _ _ _).trans (writeFile_trace_grows env fd p _)
      | none => exact ⟨[], by simp⟩
  · intro tn sl f it ih p s
    unfold WriteFile
    simp only []
    refine List.IsPrefix.trans ?_ (List.prefix_append _ [Event.spanFinish])
    cases sl with
    | some target =>
      exact (span_grows s _ _ _).trans (writeSymlinkHeader_trace_grows env _ _ _)
    | none =>
      cases f with
      | some fd => exact (span_grows s _ _ _).trans (writeFile_trace_grows env fd p _)
      | none =>
        simp only
        have hh := (span_grows s (.spanStart "tar write file") (.spanTag "path" p)
          (.spanTag "type" "directory")).trans (writeDirHeader_trace_grows env p _)
        split
        · rename_i hd
          rw [hd] at hh
          exact hh
        · rename_i s2 hd
          rw [hd] at hh
          exact hh.trans (ih p s2)
  · intro err p s
    unfold iterate
    exact List.prefix_refl _
  · intro name node rest ihn ihr p s
    unfold iterate
    have h1 := (List.prefix_append _ _).trans (ihn (Join [p, name]) s)
    split
    · rename_i hw
      rw [hw] at h1
      exact h1
    · rename_i s1 hw
      rw [hw] at h1
      exact h1.trans (ihr p s1)

/-! ## `path.Clean` on plain paths -/

theorem copyElem_plain (e tail : List Char) (out : LazyBuf) (he : '/' ∉ e)
    (ht : tail = [] ∨ tail.head? = some '/') :
    copyElem (e ++ tail) out = (e.reverse ++ out, tail) := by
  induction e generalizing out with
  | nil =>
    rcases ht with rfl | ht
    · simp [copyElem]
    · cases tail with
      | nil => simp [copyElem]
      | cons c cs =>
        simp only [List.head?_cons, Option.some.injEq] at ht
        subst ht
        simp [copyElem]
  | cons c cs ih =>
    have hc : c ≠ '/' := fun h => he (by simp [h])
    have hcs : '/' ∉ cs := fun h => he (by simp [h])
    show copyElem (c :: (cs ++ tail)) out = _
    rw [copyElem, if_neg hc, ih _ hcs]
    simp

/-- One real path element: the loop copies it to the buffer, after a slash unless the
buffer is at its start. -/
theorem cleanLoop_plainElem (rooted : Bool) (fuel : Nat) (e tail : List Char)
    (out : LazyBuf) (dotdot : Nat) (he : plainElem e)
    (ht : tail = [] ∨ tail.head? = some '/') :
    cleanLoop rooted (fuel + 1) (e ++ tail) out dotdot =
      cleanLoop rooted fuel tail
        (e.reverse ++
          (if (rooted = true ∧ out.length ≠ 1) ∨ (rooted = false ∧ out.length ≠ 0)
           then '/' :: out else out)) dotdot := by
  obtain ⟨hne, hslash, hdot, hdotdot⟩ := he
  cases e with
  | nil => exact absurd rfl hne
  | cons c cs =>
    have hc : c ≠ '/' := fun h => hslash (by simp [h])
    have hcs : '/' ∉ cs := fun h => hslash (by simp [h])
    have h1 : ¬ (c = '.' ∧ (cs ++ tail = [] ∨ (cs ++ tail).head? = some '/')) := by
      rintro ⟨rfl, h⟩
      cases cs with
      | nil => exact hdot rfl
      | cons d ds =>
        simp only [List.cons_append, List.head?_cons, Option.some.injEq] at h
        rcases h with h | h
        · exact absurd h (by simp)
        · exact hcs (by simp [h])
    have h2 : ¬ (c = '.' ∧ (cs ++ tail).head? = some '.' ∧
        ((cs ++ tail).tail = [] ∨ (cs ++ tail).tail.head? = some '/')) := by
      rintro ⟨rfl, h, h3⟩
      cases cs with
      | nil =>
        rcases ht with rfl | ht
        · simp at h
        · simp only [List.nil_append] at h
          rw [ht] at h
          exact absurd h (by decide)
      | cons d ds =>
        simp only [List.cons_append, List.head?_cons, Option.some.injEq] at h
        subst h
        cases ds with
        | nil => exact hdotdot rfl
        | cons d2 ds2 =>
          simp only [List.cons_append, List.tail_cons, List.head?_cons,
            Option.some.injEq] at h3
          rcases h3 with h3 | h3
          · exact absurd h3 (by simp)
          · exact hcs (by simp [h3])
    have hcopy := copyElem_plain (c :: cs) tail
      (if (rooted = true ∧ out.length ≠ 1) ∨ (rooted = false ∧ out.length ≠ 0)
       then '/' :: out else out) hslash ht
    simp only [List.cons_append] at hcopy h1 h2 ⊢
    rw [cleanLoop]
    simp only [hc, if_false, h1, h2, hcopy]

theorem cleanLoop_nil (rooted : Bool) (fuel : Nat) (out : LazyBuf) (dotdot : Nat) :
    cleanLoop rooted fuel [] out dotdot = out := by
  cases fuel <;> rfl

theorem slashJoin_cons_cons (e e2 : List Char) (es : List (List Char)) :
    slashJoin (e :: e2 :: es) = e ++ '/' :: slashJoin (e2 :: es) := rfl

theorem slashJoin_length_pos (es : List (List Char)) (hne : es ≠ [])
    (hes : ∀ e ∈ es, plainElem e) : 0 < (slashJoin es).length := by
  cases es with
  | nil => exact absurd rfl hne
  | cons e rest =>
    have he := (hes e (by simp)).1
    cases rest with
    | nil => exact List.length_pos.mpr he
    | cons e2 rest2 =>
      rw [slashJoin_cons_cons]
      simp

/-- On plain elements separated by single slashes the loop of `path.Clean` copies its
input: the first element follows what the buffer holds (after a slash unless the buffer is
at its start), every later one follows a slash. -/
theorem cleanLoop_slashJoin (rooted : Bool) (dotdot : Nat) (es : List (List Char)) :
    es ≠ [] → (∀ e ∈ es, plainElem e) → ∀ (fuel : Nat) (out : LazyBuf),
      (slashJoin es).length ≤ fuel →
      cleanLoop rooted fuel (slashJoin es) out dotdot =
        (slashJoin es).reverse ++
          (if (rooted = true ∧ out.length ≠ 1) ∨ (rooted = false ∧ out.length ≠ 0)
           then '/' :: out else out) := by
  induction es with
  | nil => intro h; exact absurd rfl h
  | cons e rest ih =>
    intro _ hes fuel out hfuel
    have he : plainElem e := hes e (by simp)
    cases rest with
    | nil =>
      simp only [slashJoin] at hfuel ⊢
      have hpos : 0 < e.length := List.length_pos.mpr he.1
      obtain ⟨k, rfl⟩ : ∃ k, fuel = k + 1 := ⟨fuel - 1, by omega⟩
      have := cleanLoop_plainElem rooted k e [] out dotdot he (Or.inl rfl)
      rw [List.append_nil] at this
      rw [this, cleanLoop_nil]
    | cons e2 rest2 =>
      have hrest : ∀ x ∈ e2 :: rest2, plainElem x := fun x hx => hes x (by simp [hx])
      have hlen := slashJoin_length_pos (e2 :: rest2) (by simp) hrest
      rw [slashJoin_cons_cons] at hfuel ⊢
      simp only [List.length_append, List.length_cons] at hfuel
      have hpos : 0 < e.length := List.length_pos.mpr he.1
      obtain ⟨k, rfl⟩ : ∃ k, fuel = k + 1 + 1 := ⟨fuel - 2, by omega⟩
      rw [cleanLoop_plainElem rooted (k + 1) e ('/' :: slashJoin (e2 :: rest2)) out dotdot he
        (Or.inr rfl)]
      rw [cleanLoop]
      simp only [if_true]
      rw [ih (by simp) hrest k _ (by omega)]
      have hcond : (rooted = true ∧ (e.reverse ++
            (if (rooted = true ∧ out.length ≠ 1) ∨ (rooted = false ∧ out.length ≠ 0)
             then '/' :: out else out)).length ≠ 1) ∨
          (rooted = false ∧ (e.reverse ++
            (if (rooted = true ∧ out.length ≠ 1) ∨ (rooted = false ∧ out.length ≠ 0)
             then '/' :: out else out)).length ≠ 0) := by
        cases rooted
        · right
          refine ⟨rfl, ?_⟩
          simp only [List.length_append, List.length_reverse]
          omega
        · left
          refine ⟨rfl, ?_⟩
          by_cases h : (true = true ∧ out.length ≠ 1) ∨ (true = false ∧ out.length ≠ 0)
          · rw [if_pos h]
            simp only [List.length_append, List.length_reverse, List.length_cons]
            omega
          · rw [if_neg h]
            have : out.length = 1 := by
              by_contra hne
              exact h (Or.inl ⟨rfl, hne⟩)
            simp only [List.length_append, List.length_reverse]
            omega
      rw [if_pos hcond]
      simp

theorem slashJoin_head (es : List (List Char)) (hne : es ≠ [])
    (hes : ∀ e ∈ es, plainElem e) : (slashJoin es).head? ≠ some '/' := by
  cases es with
  | nil => exact absurd rfl hne
  | cons e rest =>
    obtain ⟨h1, h2, _, _⟩ := hes e (by simp)
    cases e with
    | nil => exact absurd rfl h1
    | cons c cs =>
      have hc : c ≠ '/' := fun h => h2 (by simp [h])
      cases rest with
      | nil => simpa [slashJoin] using hc
      | cons e2 rest2 => simpa [slashJoin] using hc

theorem slashJoin_snoc (es : List (List Char)) (e : List Char) (hne : es ≠ []) :
    slashJoin (es ++ [e]) = slashJoin es ++ '/' :: e := by
  induction es with
  | nil => exact absurd rfl hne
  | cons e1 rest ih =>
    cases rest with
    | nil => simp [slashJoin]
    | cons e2 rest2 =>
      have := ih (by simp)
      simp only [List.cons_append] at this ⊢
      rw [slashJoin_cons_cons, this, slashJoin_cons_cons]
      simp

/-- A plain path is already clean: `path.Clean` returns it unchanged. -/
theorem Clean_plainPath (q : String) (hq : plainPath q) : Clean q = q := by
  obtain ⟨rooted, es, hne, hes, hdata⟩ := hq
  have hpos := slashJoin_length_pos es hne hes
  have hhead := slashJoin_head es hne hes
  have hq0 : q ≠ "" := by
    intro h
    rw [h] at hdata
    have := congrArg List.length hdata
    simp at this
    omega
  obtain ⟨data⟩ := q
  simp only at hdata
  subst hdata
  unfold Clean
  rw [if_neg hq0]
  cases rooted with
  | true =>
    simp only [if_true, List.singleton_append, List.head?_cons, decide_True, List.tail_cons]
    rw [cleanLoop_slashJoin true 1 es hne hes _ _ (le_refl _)]
    simp
  | false =>
    have hd : decide ((slashJoin es).head? = some '/') = false := by simpa using hhead
    simp only [Bool.false_eq_true, if_false, List.nil_append, hd]
    rw [cleanLoop_slashJoin false 0 es hne hes _ _ (le_refl _)]
    simp
    intro h
    rw [h] at hpos
    simp at hpos

/-- For a plain directory path and a plain child name `path.Join` is plain
concatenation with a slash. -/
theorem Join_plain (p n : String) (hp : plainPath p) (hn : plainElem n.data) :
    Join [p, n] = p ++ "/" ++ n := by
  obtain ⟨rooted, es, hne, hes, hdata⟩ := hp
  have hpos := slashJoin_length_pos es hne hes
  have hplen : 0 < p.data.length := by
    rw [hdata]
    simp only [List.length_append]
    omega
  have hp0 : p ≠ "" := by
    intro h
    rw [h] at hplen
    simp at hplen
  have hjoin : String.mk (joinBuf [p, n] []) = p ++ "/" ++ n := by
    simp only [joinBuf, List.length_nil, lt_irrefl, false_or, hp0, ne_eq, not_false_eq_true,
      if_true, if_false, List.nil_append, hplen, true_or]
    apply String.ext
    simp
  have hsum : ¬ ((List.map String.length [p, n]).sum = 0) := by
    simp only [List.map_cons, List.map_nil, List.sum_cons, List.sum_nil, String.length]
    omega
  unfold Join
  rw [if_neg hsum, hjoin]
  apply Clean_plainPath
  refine ⟨rooted, es ++ [n.data], by simp, ?_, ?_⟩
  · intro e he
    rcases List.mem_append.mp he with h | h
    · exact hes e h
    · simp only [List.mem_singleton] at h
      rw [h]
      exact hn
  · rw [slashJoin_snoc es _ hne]
    simp [hdata]

/-! ## Child paths -/

/-- C2 (as stated, refuted): children are not written under `p + "/" + n`. Under the
empty directory path the child `a` is written as `a`, under `root` the child `..` is
written as `.`, and under `a/` the child `b` is written as `a/b`. -/
theorem child_path_is_cleaned :
    (sinkKinds (WriteFile envOK background
        (.ofDir (.ofList [("a", .symlinkTo "t")] none)) "" NewTarWriter).2.trace =
        [("", TypeDir), ("a", TypeSymlink)] ∧ "a" ≠ "" ++ "/" ++ "a") ∧
    (sinkKinds (WriteFile envOK background
        (.ofDir (.ofList [("..", .symlinkTo "t")] none)) "root" NewTarWriter).2.trace =
        [("root", TypeDir), (".", TypeSymlink)] ∧ "." ≠ "root" ++ "/" ++ "..") ∧
    (sinkKinds (WriteFile envOK background
        (.ofDir (.ofList [("b", .symlinkTo "t")] none)) "a/" NewTarWriter).2.trace =
        [("a/", TypeDir), ("a/b", TypeSymlink)] ∧ "a/b" ≠ "a/" ++ "/" ++ "b") := by
  decide

/-- C2 (amended): every child the iterator yields is visited under `path.Join` of the
directory path and the child's name, and that is the directory path, a slash and the
name whenever the directory path is plain (plain elements separated by single slashes,
with or without a leading slash) and the name is a plain element. -/
theorem child_written_under_Join (env : Env) (ctx : Context) (name : String) (node : Node)
    (rest : Entries) (p : String) (s : State) :
    s.trace ++ [.spanStart "tar write file", .spanTag "path" (Join [p, name])] <+:
        (iterate env ctx (.next name node rest) p s).2.trace ∧
      (plainPath p → plainElem name.data → Join [p, name] = p ++ "/" ++ name) := by
  refine ⟨?_, Join_plain p name⟩
  unfold iterate
  have h1 := (walk_trace_grows env ctx).1 node (Join [p, name]) s
  split
  · rename_i hw
    rw [hw] at h1
    exact h1
  · rename_i s1 hw
    rw [hw] at h1
    exact h1.trans ((walk_trace_grows env ctx).2 rest p s1)

theorem child_written_under_Join_witness :
    plainPath "root" ∧ plainElem "a".data ∧ Join ["root", "a"] = "root" ++ "/" ++ "a" :=
  have hp : plainPath "root" :=
    ⟨false, [['r', 'o', 'o', 't']], by simp, by simp [plainElem], rfl⟩
  have hn : plainElem "a".data := by simp [plainElem]
  ⟨hp, hn, (child_written_under_Join envOK background "a" (.symlinkTo "t") (.done none)
    "root" NewTarWriter).2 hp hn⟩

/-! ## Files whose stream and declared size differ -/

/-- C3 (the code at the failing input): a file that declares 2 bytes and delivers 1 is
written with success: the header says 2, the body holds 1 byte. A file that delivers
more than it declares does fail, with `ErrWriteTooLong`. -/
theorem short_file_written_with_success :
    (WriteFile envOK background (.ofFile shortFile) "f" NewTarWriter).1 = none ∧
      (sinkHeaders (WriteFile envOK background (.ofFile shortFile) "f"
        NewTarWriter).2.trace).map (fun hdr => hdr.Size) = [2] ∧
      sinkBody (WriteFile envOK background (.ofFile shortFile) "f" NewTarWriter).2.trace =
        [104] ∧
      (WriteFile envOK background (.ofFile longFile) "f" NewTarWriter).1 =
        some ErrWriteTooLong := by
  decide

/-- C4 (the code at the failing input): after the body of a one-byte file is copied,
`Flush` fails with the sink's error on writing the padding, and `writeFile` and
`WriteFile` return success all the same. -/
theorem flush_failure_is_dropped :
    (Flush envPadFails (ioCopy envPadFails [[104]] none
        (writeFileHeader envPadFails "f" 1 NewTarWriter).2).2).1 = some "disk full" ∧
      (writeFile envPadFails (.ofBytes [104]) "f" NewTarWriter).1 = none ∧
      (WriteFile envPadFails background (.ofFile (.ofBytes [104])) "f" NewTarWriter).1 =
        none := by
  decide

/-! ## Directories -/

/-- The `Directory` case of `WriteFile` is `writeDir` inside the span. -/
theorem WriteFile_dir (env : Env) (ctx : Context) (tn : String) (it : Entries) (p : String)
    (s : State) :
    WriteFile env ctx (.mk tn none none (.entries it)) p s =
      ((writeDir env ctx it p (((s.emit (.spanStart "tar write file")).emit
          (.spanTag "path" p)).emit (.spanTag "type" "directory"))).1,
       (writeDir env ctx it p (((s.emit (.spanStart "tar write file")).emit
          (.spanTag "path" p)).emit (.spanTag "type" "directory"))).2.emit .spanFinish) := by
  rw [WriteFile]
  rfl

@[simp] theorem children_ofList (l : List (String × Node)) (err : Option Error) :
    (Entries.ofList l err).children = l := by
  induction l with
  | nil => rfl
  | cons nc rest ih =>
    obtain ⟨name, node⟩ := nc
    simp [Entries.ofList, Entries.children, ih]

/-- An iterator that fails after its children ends the loop in the state of the loop
over the same children without the failure. -/
theorem iterate_ofList_err (env : Env) (ctx : Context) (l : List (String × Node))
    (e : Error) (p : String) (s s1 : State)
    (h : iterate env ctx (.ofList l none) p s = (none, s1)) :
    iterate env ctx (.ofList l (some e)) p s = (some e, s1) := by
  induction l generalizing s with
  | nil =>
    simp only [Entries.ofList, iterate, Prod.mk.injEq, true_and] at h ⊢
    exact h
  | cons nc rest ih =>
    obtain ⟨name, node⟩ := nc
    simp only [Entries.ofList] at h ⊢
    rw [iterate] at h ⊢
    generalize WriteFile env ctx node (Join [p, name]) s = r at h ⊢
    obtain ⟨err, s2⟩ := r
    cases err with
    | some e2 => simp at h
    | none =>
      simp only at h ⊢
      exact ih s2 h

/-- C5: when the iterator of a directory yields N children, each written with success,
and then reports an error, `WriteFile` returns that error and leaves exactly the state
of the successful walk over those N children: the sink holds the directory's entry
followed by the entries of the N children in order, and nothing else. -/
theorem iterator_error_after_children (env : Env) (ctx : Context) (tn : String)
    (l : List (String × Node)) (e : Error) (p : String) (s s1 : State)
    (h : WriteFile env ctx (.mk tn none none (.entries (.ofList l none))) p s = (none, s1)) :
    WriteFile env ctx (.mk tn none none (.entries (.ofList l (some e)))) p s = (some e, s1) ∧
      sinkKinds s1.trace = sinkKinds s.trace ++
        (p, TypeDir) :: (l.map fun nc => preorder nc.2 (Join [p, nc.1])).flatten := by
  constructor
  · rw [WriteFile_dir] at h ⊢
    unfold writeDir at h ⊢
    generalize writeDirHeader env p _ = r at h ⊢
    obtain ⟨err, s2⟩ := r
    cases err with
    | some e2 => simp at h
    | none =>
      simp only at h ⊢
      generalize hr : iterate env ctx (.ofList l none) p s2 = r2 at h
      obtain ⟨err2, s3⟩ := r2
      simp only [Prod.mk.injEq] at h
      obtain ⟨h1, h2⟩ := h
      subst h1
      rw [iterate_ofList_err env ctx l e p s2 s3 hr, h2]
  · rw [(walk_sinkKinds env ctx).1 _ p s s1 h, preorder, preorderChildren_eq,
      children_ofList]

theorem iterator_error_after_children_witness :
    WriteFile envOK background (.mk "dir" none none (.entries (.ofList
        [("x", .symlinkTo "y"), ("e", .ofFile (.ofBytes []))] none))) "top" NewTarWriter =
      (none, (WriteFile envOK background (.mk "dir" none none (.entries (.ofList
        [("x", .symlinkTo "y"), ("e", .ofFile (.ofBytes []))] none))) "top"
        NewTarWriter).2) ∧
    (WriteFile envOK background (.mk "dir" none none (.entries (.ofList
        [("x", .symlinkTo "y"), ("e", .ofFile (.ofBytes []))] (some "listing failed"))))
        "top" NewTarWriter).1 = some "listing failed" ∧
    sinkKinds (WriteFile envOK background (.mk "dir" none none (.entries (.ofList
        [("x", .symlinkTo "y"), ("e", .ofFile (.ofBytes []))] (some "listing failed"))))
        "top" NewTarWriter).2.trace =
      [("top", TypeDir), ("top/x", TypeSymlink), ("top/e", TypeReg)] :=
  have h := iterator_error_after_children envOK background "dir"
    [("x", .symlinkTo "y"), ("e", .ofFile (.ofBytes []))] "listing failed" "top"
    NewTarWriter _ rfl
  ⟨rfl, by rw [h.1], by rw [h.1]; exact h.2.trans (by decide)⟩

/-! ## Nodes of an unsupported kind -/

/-- C6 (as stated, refuted): the error for a node of an unsupported kind does not name
the path. At path `root/x`, as the root or as child `x` of directory `root`, the message
is `file type *files.Foo is not supported`, in which `root/x` does not occur. -/
theorem unsupported_error_omits_path :
    (WriteFile envOK background (.other "*files.Foo") "root/x" NewTarWriter).1 =
        some "file type *files.Foo is not supported" ∧
      (WriteFile envOK background (.ofDir (.ofList [("x", .other "*files.Foo")] none))
        "root" NewTarWriter).1 = some "file type *files.Foo is not supported" ∧
      ¬ ("root/x".data <:+: "file type *files.Foo is not supported".data) := by
  decide

/-- C6 (amended): for a node that is neither a `File`, a `Directory` nor a `*Symlink`,
met as the root or as a child of a directory, at every path and in every state,
`WriteFile` returns the error `file type T is not supported`, whose message names the
concrete kind `T` of the node. -/
theorem unsupported_error_names_kind (env : Env) (ctx : Context) (tn : String)
    (p : String) (s : State) (name : String) (rest : Entries) :
    (WriteFile env ctx (.mk tn none none .absent) p s).1 = some (errNotSupported tn) ∧
      (iterate env ctx (.next name (.mk tn none none .absent) rest) p s).1 =
        some (errNotSupported tn) ∧
      errNotSupported tn = "file type " ++ tn ++ " is not supported" ∧
      tn.data <:+: (errNotSupported tn).data := by
  refine ⟨by rw [WriteFile], by rw [iterate, WriteFile], rfl, ?_⟩
  exact ⟨"file type ".data, " is not supported".data, by simp [errNotSupported]⟩

theorem unsupported_walk_fails (env : Env) (ctx : Context) :
    (∀ nd p s, nd.hasUnsupported = true → (WriteFile env ctx nd p s).1 ≠ none) ∧
    (∀ it p s, it.hasUnsupported = true → (iterate env ctx it p s).1 ≠ none) := by
  apply tree_induction
  · intro tn sl f p s h
    cases sl with
    | some t => simp [Node.hasUnsupported] at h
    | none =>
      cases f with
      | some fd => simp [Node.hasUnsupported] at h
      | none =>
        rw [WriteFile]
        simp
  · intro tn sl f it ih p s h
    cases sl with
    | some t => simp [Node.hasUnsupported] at h
    | none =>
      cases f with
      | some fd => simp [Node.hasUnsupported] at h
      | none =>
        rw [Node.hasUnsupported] at h
        rw [WriteFile_dir]
        unfold writeDir
        generalize writeDirHeader env p _ = r
        obtain ⟨err, s2⟩ := r
        cases err with
        | some e => simp
        | none => exact ih p s2 h
  · intro err p s h
    simp [Entries.hasUnsupported] at h
  · intro name node rest ihn ihr p s h
    rw [iterate]
    have hn := ihn (Join [p, name]) s
    generalize WriteFile env ctx node (Join [p, name]) s = r at hn ⊢
    obtain ⟨err, s2⟩ := r
    cases err with
    | some e => simp
    | none =>
      simp only at hn ⊢
      simp only [Entries.hasUnsupported, Bool.or_eq_true] at h
      rcases h with h | h
      · exact absurd rfl (hn h)
      · exact ihr p s2 h

/-- C7: `WriteFile` on a tree whose walk meets a node that is neither a `File`, a
`Directory` nor a `*Symlink` returns an error; the visit of such a node adds only its
span to the trace and changes nothing of the writer, so nothing is written to the sink
for it; and the loop over a directory stops at such a child in that very state, whatever
siblings follow it. -/
theorem unsupported_node_aborts (env : Env) (ctx : Context) (nd : Node) (p : String)
    (s : State) (h : nd.hasUnsupported = true) :
    (WriteFile env ctx nd p s).1 ≠ none ∧
      (∀ tn q t, WriteFile env ctx (.mk tn none none .absent) q t =
        (some (errNotSupported tn),
          ((t.emit (.spanStart "tar write file")).emit (.spanTag "path" q)).emit
            .spanFinish)) ∧
      (∀ tn name rest q t, iterate env ctx (.next name (.mk tn none none .absent) rest) q t =
        (some (errNotSupported tn),
          ((t.emit (.spanStart "tar write file")).emit
            (.spanTag "path" (Join [q, name]))).emit .spanFinish)) :=
  ⟨(unsupported_walk_fails env ctx).1 nd p s h,
   fun tn q t => by rw [WriteFile],
   fun tn name rest q t => by rw [iterate, WriteFile]⟩

theorem unsupported_node_aborts_witness :
    treeWithUnknown.hasUnsupported = true ∧
      (WriteFile envOK background treeWithUnknown "root" NewTarWriter).1 ≠ none ∧
      sinkKinds (WriteFile envOK background treeWithUnknown "root" NewTarWriter).2.trace =
        [("root", TypeDir), ("root/l", TypeSymlink), ("root/d", TypeDir)] :=
  ⟨by decide,
   (unsupported_node_aborts envOK background treeWithUnknown "root" NewTarWriter
     (by decide)).1,
   by decide⟩

/-! ## Walks over a sink that never fails -/

@[simp] theorem emit_err (s : State) (ev : Event) : (s.emit ev).err = s.err := rfl

@[simp] theorem emit_nb (s : State) (ev : Event) : (s.emit ev).nb = s.nb := rfl

@[simp] theorem sinkRecords_append (t u : List Event) :
    sinkRecords (t ++ u) = sinkRecords t ++ sinkRecords u := by
  simp [sinkRecords]

theorem sinkRecords_emit_span (s : State) (ev : Event) (h : sinkHeaders [ev] = []) :
    sinkRecords (s.emit ev).trace = sinkRecords s.trace := by
  simp [sinkRecords, h]

theorem Flush_ok (env : Env) (hsink : ∀ t ev, env.sink t ev = none) (s : State)
    (herr : s.err = none) (hnb : s.nb = 0) :
    (Flush env s).1 = none ∧ (Flush env s).2.err = none ∧ (Flush env s).2.nb = 0 := by
  unfold Flush
  rw [herr]
  simp only [hnb, lt_irrefl, if_false, hsink]
  split <;> simp [herr, hnb]

theorem WriteHeader_ok (env : Env) (hsink : ∀ t ev, env.sink t ev = none) (hdr : Header)
    (s : State) (herr : s.err = none) (hnb : s.nb = 0)
    (hsize : isHeaderOnlyType hdr.Typeflag = true ∨ 0 ≤ hdr.Size) :
    (WriteHeader env hdr s).1 = none ∧ (WriteHeader env hdr s).2.err = none ∧
      (WriteHeader env hdr s).2.nb =
        (if isHeaderOnlyType hdr.Typeflag then 0 else hdr.Size.toNat) ∧
      sinkHeaders (WriteHeader env hdr s).2.trace = sinkHeaders s.trace ++ [hdr] := by
  obtain ⟨h1, h2, h3⟩ := Flush_ok env hsink s herr hnb
  have h4 := Flush_sinkHeaders env s
  unfold WriteHeader
  generalize Flush env s = r at h1 h2 h3 h4
  obtain ⟨e, s1⟩ := r
  simp only at h1 h2 h3 h4
  subst h1
  have hneg : ¬ (isHeaderOnlyType hdr.Typeflag = false ∧ hdr.Size < 0) := by
    rintro ⟨ha, hb⟩
    rcases hsize with h | h
    · rw [ha] at h
      exact absurd h (by decide)
    · omega
  simp only [if_neg hneg, hsink, h2, sinkHeaders_append, h4, sinkHeaders_cons_header,
    sinkHeaders_nil, and_self]

theorem Write_ok (env : Env) (hsink : ∀ t ev, env.sink t ev = none) (b : List Nat)
    (s : State) (herr : s.err = none) (hlen : b.length ≤ s.nb) :
    (Write env b s).1 = b.length ∧ (Write env b s).2.1 = none ∧
      (Write env b s).2.2.err = none ∧ (Write env b s).2.2.nb = s.nb - b.length := by
  unfold Write
  rw [herr]
  have hd : decide (s.nb < b.length) = false := by simpa using hlen
  simp only [hd, Bool.false_eq_true, if_false, hsink]
  split
  · simp [herr]
  · rename_i h
    have : b.length = 0 := by omega
    simp [herr, this]

theorem ioCopy_ok (env : Env) (hsink : ∀ t ev, env.sink t ev = none)
    (reads : List (List Nat)) (s : State) (herr : s.err = none)
    (hlen : (reads.map List.length).sum ≤ s.nb) :
    (ioCopy env reads none s).1 = none ∧ (ioCopy env reads none s).2.err = none ∧
      (ioCopy env reads none s).2.nb = s.nb - (reads.map List.length).sum := by
  induction reads generalizing s with
  | nil => simp [ioCopy, herr]
  | cons chunk rest ih =>
    simp only [List.map_cons, List.sum_cons] at hlen ⊢
    rw [ioCopy]
    split
    · obtain ⟨h1, h2, h3, h4⟩ := Write_ok env hsink chunk s herr (by omega)
      generalize Write env chunk s = r at h1 h2 h3 h4
      obtain ⟨nw, ew, s1⟩ := r
      simp only at h1 h2 h3 h4
      subst h1 h2
      simp only [ne_eq, not_true_eq_false, if_false]
      obtain ⟨i1, i2, i3⟩ := ih s1 h3 (by omega)
      exact ⟨i1, i2, by omega⟩
    · rename_i h
      have h0 : chunk.length = 0 := by omega
      obtain ⟨i1, i2, i3⟩ := ih s herr (by omega)
      exact ⟨i1, i2, by omega⟩

theorem toInt64_toUint64 (n : Nat) (h : n < 2 ^ 63) : toInt64 (toUint64 (n : Int)) = n := by
  unfold toInt64 toUint64
  have h1 : ((n : Int) % 2 ^ 64).toNat = n := by
    have : ((n : Int) % 2 ^ 64) = n := Int.emod_eq_of_lt (by omega) (by omega)
    rw [this]
    simp
  rw [h1]
  have h2 : n % 2 ^ 64 = n := Nat.mod_eq_of_lt (by omega)
  rw [h2, if_pos h]

theorem writeFile_ok (env : Env) (hsink : ∀ t ev, env.sink t ev = none) (f : FileData)
    (fpath : String) (s : State) (herr : s.err = none) (hnb : s.nb = 0)
    (hf : f.wellBehaved) :
    (writeFile env f fpath s).1 = none ∧ (writeFile env f fpath s).2.err = none ∧
      (writeFile env f fpath s).2.nb = 0 ∧
      sinkRecords (writeFile env f fpath s).2.trace =
        sinkRecords s.trace ++ [(fpath, TypeReg, f.declaredSize, "")] := by
  obtain ⟨hsize, hread, hrange⟩ := hf
  have hconv := toInt64_toUint64 f.streamLength hrange
  have hdecl : f.declaredSize = f.streamLength := by
    unfold FileData.declaredSize
    rw [hsize]
  unfold writeFile
  rw [hsize]
  simp only
  obtain ⟨w1, w2, w3, w4⟩ := WriteHeader_ok env hsink
    { Name := fpath, Size := toInt64 (toUint64 f.streamLength), Typeflag := TypeReg,
      Mode := 0o644, ModTime := some (timeNow env s).1, Linkname := "" }
    (timeNow env s).2 herr hnb (Or.inr (by rw [hconv]; exact Int.ofNat_nonneg _))
  unfold writeFileHeader
  generalize WriteHeader env _ (timeNow env s).2 = r at w1 w2 w3 w4
  obtain ⟨e, s1⟩ := r
  simp only at w1 w2 w3 w4
  subst w1
  simp only
  have hnb1 : s1.nb = f.streamLength := by
    rw [w3, hconv]
    simp [isHeaderOnlyType, TypeReg, TypeLink, TypeSymlink, TypeChar, TypeBlock, TypeDir,
      TypeFifo]
  obtain ⟨c1, c2, c3⟩ := ioCopy_ok env hsink f.reads s1 w2
    (by rw [hnb1]; exact le_refl _)
  have c4 := ioCopy_sinkHeaders env f.reads none s1
  rw [hread]
  generalize ioCopy env f.reads none s1 = r2 at c1 c2 c3 c4
  obtain ⟨e2, s2⟩ := r2
  simp only at c1 c2 c3 c4
  subst c1
  simp only
  have hnb2 : s2.nb = 0 := by
    rw [c3, hnb1]
    exact Nat.sub_self _
  obtain ⟨f1, f2, f3⟩ := Flush_ok env hsink s2 c2 hnb2
  refine ⟨trivial, f2, f3, ?_⟩
  simp only [sinkRecords, Flush_sinkHeaders, c4, w4, timeNow, List.map_append, List.map_cons,
    List.map_nil, Header.record, hconv, hdecl]

theorem walk_ok (env : Env) (ctx : Context) (hsink : ∀ t ev, env.sink t ev = none) :
    (∀ nd p s, s.err = none → s.nb = 0 → nd.wellBehaved →
      (WriteFile env ctx nd p s).1 = none ∧ (WriteFile env ctx nd p s).2.err = none ∧
        (WriteFile env ctx nd p s).2.nb = 0 ∧
        sinkRecords (WriteFile env ctx nd p s).2.trace =
          sinkRecords s.trace ++ records nd p) ∧
    (∀ it p s, s.err = none → s.nb = 0 → it.wellBehaved →
      (iterate env ctx it p s).1 = none ∧ (iterate env ctx it p s).2.err = none ∧
        (iterate env ctx it p s).2.nb = 0 ∧
        sinkRecords (iterate env ctx it p s).2.trace =
          sinkRecords s.trace ++ recordsChildren it p) := by
  have hleafcase : ∀ tn sl f d p s, s.err = none → s.nb = 0 →
      (sl ≠ none ∨ f ≠ none) → (Node.mk tn sl f d).wellBehaved →
      (WriteFile env ctx (.mk tn sl f d) p s).1 = none ∧
        (WriteFile env ctx (.mk tn sl f d) p s).2.err = none ∧
        (WriteFile env ctx (.mk tn sl f d) p s).2.nb = 0 ∧
        sinkRecords (WriteFile env ctx (.mk tn sl f d) p s).2.trace =
          sinkRecords s.trace ++ records (.mk tn sl f d) p := by
    intro tn sl f d p s herr hnb hkind hw
    unfold WriteFile
    cases sl with
    | some target =>
      obtain ⟨w1, w2, w3, w4⟩ := WriteHeader_ok env hsink
        { Name := p, Linkname := target, Mode := 0o777, Typeflag := TypeSymlink,
          Size := 0, ModTime := none }
        (((s.emit (.spanStart "tar write file")).emit (.spanTag "path" p)).emit
          (.spanTag "type" "symlink")) herr hnb (Or.inl rfl)
      simp only [writeSymlinkHeader, emit_err, emit_nb, emit_trace, sinkRecords_append]
      refine ⟨w1, w2, ?_, ?_⟩
      · rw [w3]
        rfl
      · simp only [sinkRecords, w4, records]
        simp [Header.record]
    | none =>
      cases f with
      | none => simp at hkind
      | some fd =>
        rw [Node.wellBehaved] at hw
        obtain ⟨w1, w2, w3, w4⟩ := writeFile_ok env hsink fd p
          (((s.emit (.spanStart "tar write file")).emit (.spanTag "path" p)).emit
            (.spanTag "type" "file")) herr hnb hw
        simp only [emit_err, emit_nb, emit_trace, sinkRecords_append]
        refine ⟨w1, w2, w3, ?_⟩
        rw [w4]
        simp [sinkRecords, records]
  apply tree_induction
  · intro tn sl f p s herr hnb hw
    cases sl with
    | some target => exact hleafcase tn _ f _ p s herr hnb (Or.inl (by simp)) hw
    | none =>
      cases f with
      | some fd => exact hleafcase tn _ _ _ p s herr hnb (Or.inr (by simp)) hw
      | none => simp [Node.wellBehaved] at hw
  · intro tn sl f it ih p s herr hnb hw
    cases sl with
    | some target => exact hleafcase tn _ f _ p s herr hnb (Or.inl (by simp)) hw
    | none =>
      cases f with
      | some fd => exact hleafcase tn _ _ _ p s herr hnb (Or.inr (by simp)) hw
      | none =>
        rw [Node.wellBehaved] at hw
        rw [WriteFile_dir]
        unfold writeDir writeDirHeader
        obtain ⟨w1, w2, w3, w4⟩ := WriteHeader_ok env hsink
          { Name := p, Typeflag := TypeDir, Mode := 0o777,
            ModTime := some (timeNow env (((s.emit (.spanStart "tar write file")).emit
              (.spanTag "path" p)).emit (.spanTag "type" "directory"))).1,
            Size := 0, Linkname := "" }
          (timeNow env (((s.emit (.spanStart "tar write file")).emit
              (.spanTag "path" p)).emit (.spanTag "type" "directory"))).2
          herr hnb (Or.inl rfl)
        generalize WriteHeader env _ (timeNow env _).2 = r at w1 w2 w3 w4
        obtain ⟨e, s2⟩ := r
        simp only at w1 w2 w3 w4
        subst w1
        have hnb2 : s2.nb = 0 := by
          rw [w3]
          rfl
        obtain ⟨i1, i2, i3, i4⟩ := ih p s2 w2 hnb2 hw
        simp only [emit_err, emit_nb, emit_trace, sinkRecords_append]
        refine ⟨i1, i2, i3, ?_⟩
        rw [i4]
        simp [sinkRecords, w4, timeNow, records, Header.record]
  · intro err p s herr hnb hw
    rw [Entries.wellBehaved] at hw
    subst hw
    simp [iterate, herr, hnb, recordsChildren]
  · intro name node rest ihn ihr p s herr hnb hw
    rw [Entries.wellBehaved] at hw
    obtain ⟨n1, n2, n3, n4⟩ := ihn (Join [p, name]) s herr hnb hw.1
    rw [iterate]
    generalize WriteFile env ctx node (Join [p, name]) s = r at n1 n2 n3 n4
    obtain ⟨e, s1⟩ := r
    simp only at n1 n2 n3 n4
    subst n1
    obtain ⟨r1, r2, r3, r4⟩ := ihr p s1 n2 n3 hw.2
    refine ⟨r1, r2, r3, ?_⟩
    simp only
    rw [r4, n4, recordsChildren, List.append_assoc]

/-- C8: over a sink that never fails and from a writer with no error and no unfinished
entry, `WriteFile` on a tree of symlinks, well-behaved files and directories succeeds,
and the entries it adds to the sink, read back as (path, kind, size, link target), are
exactly the records of the tree: one per node, in walk order. -/
theorem well_behaved_tree_records (env : Env) (ctx : Context) (nd : Node) (p : String)
    (s : State) (hsink : ∀ t ev, env.sink t ev = none) (herr : s.err = none)
    (hnb : s.nb = 0) (hw : nd.wellBehaved) :
    (WriteFile env ctx nd p s).1 = none ∧
      sinkRecords (WriteFile env ctx nd p s).2.trace = sinkRecords s.trace ++ records nd p :=
  have h := (walk_ok env ctx hsink).1 nd p s herr hnb hw
  ⟨h.1, h.2.2.2⟩

theorem well_behaved_tree_records_witness :
    (∀ t ev, envOK.sink t ev = none) ∧ NewTarWriter.err = none ∧ NewTarWriter.nb = 0 ∧
      scenarioRoot.wellBehaved ∧
      (WriteFile envOK background scenarioRoot "root" NewTarWriter).1 = none ∧
      sinkRecords (WriteFile envOK background scenarioRoot "root" NewTarWriter).2.trace =
        sinkRecords NewTarWriter.trace ++ records scenarioRoot "root" :=
  have hsink : ∀ t ev, envOK.sink t ev = none := fun _ _ => rfl
  have hw : scenarioRoot.wellBehaved := by
    simp [scenarioRoot, Node.ofDir, Node.ofFile, Node.symlinkTo, Entries.ofList,
      Node.wellBehaved, Entries.wellBehaved, FileData.wellBehaved, FileData.ofBytes,
      FileData.streamLength, bytesOf]
  ⟨hsink, rfl, rfl, hw,
    well_behaved_tree_records envOK background scenarioRoot "root" NewTarWriter hsink rfl rfl
      hw⟩

/-! ## The scenario of the specification -/

/-- C9: for `root = Directory{"a": File("hi"), "b": Directory{}, "c": Symlink to "a"}`
and initial path `root`, over a sink that never fails, `WriteFile` on a fresh writer
succeeds and the sink holds exactly four entries in this order: directory `root`,
regular file `root/a` of size 2 with body `hi`, directory `root/b`, symlink `root/c`
with link target `a`. -/
theorem scenario_entries (env : Env) (ctx : Context)
    (hsink : ∀ t ev, env.sink t ev = none) :
    (WriteFile env ctx scenarioRoot "root" NewTarWriter).1 = none ∧
      sinkEntries (WriteFile env ctx scenarioRoot "root" NewTarWriter).2.trace =
        [(("root", TypeDir, 0, ""), []),
         (("root/a", TypeReg, 2, ""), bytesOf "hi"),
         (("root/b", TypeDir, 0, ""), []),
         (("root/c", TypeSymlink, 0, "a"), [])] := by
  have ja : Join ["root", "a"] = "root/a" := by decide
  have jb : Join ["root", "b"] = "root/b" := by decide
  have jc : Join ["root", "c"] = "root/c" := by decide
  have hdir : isHeaderOnlyType TypeDir = true := by decide
  have hsym : isHeaderOnlyType TypeSymlink = true := by decide
  have hreg : isHeaderOnlyType TypeReg = false := by decide
  have hsz : toInt64 (toUint64 2) = 2 := by decide
  have hpad0 : blockPadding 0 = 0 := by decide
  have hpad2 : blockPadding 2 = 510 := by decide
  have hb : bytesOf "hi" = [104, 105] := by decide
  simp [scenarioRoot, Node.ofDir, Node.ofFile, Node.symlinkTo, Entries.ofList,
    FileData.ofBytes, WriteFile, iterate, writeDirHeader, writeFile, writeFileHeader,
    writeSymlinkHeader, WriteHeader, Flush, Write, ioCopy, timeNow, State.emit,
    NewTarWriter, ja, jb, jc, hdir, hsym, hreg, hsz, hpad0, hpad2, hb, hsink, sinkEntries,
    bodyAfter, Header.record]

theorem scenario_entries_witness :
    (∀ t ev, envOK.sink t ev = none) ∧
      (WriteFile envOK background scenarioRoot "root" NewTarWriter).1 = none ∧
      sinkEntries (WriteFile envOK background scenarioRoot "root" NewTarWriter).2.trace =
        [(("root", TypeDir, 0, ""), []),
         (("root/a", TypeReg, 2, ""), [104, 105]),
         (("root/b", TypeDir, 0, ""), []),
         (("root/c", TypeSymlink, 0, "a"), [])] :=
  ⟨fun _ _ => rfl, scenario_entries envOK background fun _ _ => rfl⟩

/-! ## Failures stop the walk -/

/-- The loop over children that all succeed continues with what follows them. -/
theorem iterate_append (env : Env) (ctx : Context) (pre l : List (String × Node))
    (err : Option Error) (p : String) (s s1 : State)
    (h : iterate env ctx (.ofList pre none) p s = (none, s1)) :
    iterate env ctx (.ofList (pre ++ l) err) p s = iterate env ctx (.ofList l err) p s1 := by
  induction pre generalizing s with
  | nil =>
    simp only [Entries.ofList, iterate, Prod.mk.injEq, true_and] at h
    subst h
    rfl
  | cons nc rest ih =>
    obtain ⟨name, node⟩ := nc
    simp only [List.cons_append, Entries.ofList] at h ⊢
    rw [iterate] at h ⊢
    generalize WriteFile env ctx node (Join [p, name]) s = r at h ⊢
    obtain ⟨e, s2⟩ := r
    cases e with
    | some e2 => simp at h
    | none =>
      simp only at h ⊢
      exact ih s2 h

theorem writeDir_trace_grows (env : Env) (ctx : Context) (it : Entries) (p : String)
    (s : State) : s.trace <+: (writeDir env ctx it p s).2.trace := by
  unfold writeDir
  have h := writeDirHeader_trace_grows env p s
  split
  · rename_i hd
    rw [hd] at h
    exact h
  · rename_i s1 hd
    rw [hd] at h
    exact h.trans ((walk_trace_grows env ctx).2 it p s1)

/-- C10: a failing step ends the walk at once, in the state the failure left. When the
header of a directory is written, the children `pre` are written with success and the
next child fails, `writeDir` returns the child's error in the very state in which the
child returned, whatever children `rest` follow and whatever the iterator would report:
no further node is visited and nothing more is written. The same holds for a failing
directory header, a failing size lookup, file header or body copy, and an iterator
error; `WriteFile` returns what `writeDir` or `writeFile` returns and only finishes its
span. No step removes or changes what the trace already holds. -/
theorem failure_stops_walk (env : Env) (ctx : Context) (pre : List (String × Node))
    (name : String) (node : Node) (rest : List (String × Node)) (err : Option Error)
    (p : String) (s s0 s1 s2 : State) (e : Error)
    (hhdr : writeDirHeader env p s = (none, s0))
    (hpre : iterate env ctx (.ofList pre none) p s0 = (none, s1))
    (hchild : WriteFile env ctx node (Join [p, name]) s1 = (some e, s2)) :
    writeDir env ctx (.ofList (pre ++ (name, node) :: rest) err) p s = (some e, s2) ∧
      (∀ it q t e1 t1, writeDirHeader env q t = (some e1, t1) →
        writeDir env ctx it q t = (some e1, t1)) ∧
      (∀ l q t t0 t1 e1, writeDirHeader env q t = (none, t0) →
        iterate env ctx (.ofList l none) q t0 = (none, t1) →
        writeDir env ctx (.ofList l (some e1)) q t = (some e1, t1)) ∧
      (∀ f q t e1, f.size = .error e1 → writeFile env f q t = (some e1, t)) ∧
      (∀ f q t size e1 t1, f.size = .ok size →
        writeFileHeader env q (toUint64 size) t = (some e1, t1) →
        writeFile env f q t = (some e1, t1)) ∧
      (∀ f q t size t1 e1 t2, f.size = .ok size →
        writeFileHeader env q (toUint64 size) t = (none, t1) →
        ioCopy env f.reads f.readErr t1 = (some e1, t2) →
        writeFile env f q t = (some e1, t2)) ∧
      (∀ tn it q t, WriteFile env ctx (.mk tn none none (.entries it)) q t =
        ((writeDir env ctx it q (((t.emit (.spanStart "tar write file")).emit
            (.spanTag "path" q)).emit (.spanTag "type" "directory"))).1,
         (writeDir env ctx it q (((t.emit (.spanStart "tar write file")).emit
            (.spanTag "path" q)).emit (.spanTag "type" "directory"))).2.emit .spanFinish)) ∧
      (∀ tn f d q t, WriteFile env ctx (.mk tn none (some f) d) q t =
        ((writeFile env f q (((t.emit (.spanStart "tar write file")).emit
            (.spanTag "path" q)).emit (.spanTag "type" "file"))).1,
         (writeFile env f q (((t.emit (.spanStart "tar write file")).emit
            (.spanTag "path" q)).emit (.spanTag "type" "file"))).2.emit .spanFinish)) ∧
      (∀ nd q t, t.trace <+: (WriteFile env ctx nd q t).2.trace) ∧
      (∀ it q t, t.trace <+: (writeDir env ctx it q t).2.trace) ∧
      (∀ f q t, t.trace <+: (writeFile env f q t).2.trace) := by
  refine ⟨?_, ?_, ?_, ?_, ?_, ?_, fun tn it q t => WriteFile_dir env ctx tn it q t,
    fun tn f d q t => by unfold WriteFile; rfl, ?_, ?_, ?_⟩
  · unfold writeDir
    rw [hhdr]
    simp only
    rw [iterate_append env ctx pre _ err p s0 s1 hpre]
    simp only [Entries.ofList]
    rw [iterate, hchild]
  · intro it q t e1 t1 h
    unfold writeDir
    rw [h]
  · intro l q t t0 t1 e1 h1 h2
    unfold writeDir
    rw [h1]
    exact iterate_ofList_err env ctx l e1 q t0 t1 h2
  · intro f q t e1 h
    unfold writeFile
    rw [h]
  · intro f q t size e1 t1 h1 h2
    unfold writeFile
    rw [h1]
    simp only
    rw [h2]
  · intro f q t size t1 e1 t2 h1 h2 h3
    unfold writeFile
    rw [h1]
    simp only
    rw [h2]
    simp only
    rw [h3]
  · intro nd q t
    exact (List.prefix_append _ _).trans ((walk_trace_grows env ctx).1 nd q t)
  · exact writeDir_trace_grows env ctx
  · exact writeFile_trace_grows env

theorem failure_stops_walk_witness :
    writeDirHeader envOK "root" NewTarWriter =
        (none, (writeDirHeader envOK "root" NewTarWriter).2) ∧
      iterate envOK background (.ofList [("l", .symlinkTo "t")] none) "root"
          (writeDirHeader envOK "root" NewTarWriter).2 =
        (none, (iterate envOK background (.ofList [("l", .symlinkTo "t")] none) "root"
          (writeDirHeader envOK "root" NewTarWriter).2).2) ∧
      writeDir envOK background (.ofList childrenWithUnknown none) "root" NewTarWriter =
        (some (errNotSupported "*files.Unknown"),
          (WriteFile envOK background (.other "*files.Unknown") (Join ["root", "u"])
            (iterate envOK background (.ofList [("l", .symlinkTo "t")] none) "root"
              (writeDirHeader envOK "root" NewTarWriter).2).2).2) ∧
      sinkKinds (writeDir envOK background (.ofList childrenWithUnknown none) "root"
          NewTarWriter).2.trace = [("root", TypeDir), ("root/l", TypeSymlink)] :=
  ⟨rfl, rfl,
    (failure_stops_walk envOK background [("l", .symlinkTo "t")] "u"
      (.other "*files.Unknown") [("f", .ofFile (.ofBytes []))] none "root" NewTarWriter
      (writeDirHeader envOK "root" NewTarWriter).2
      (iterate envOK background (.ofList [("l", .symlinkTo "t")] none) "root"
        (writeDirHeader envOK "root" NewTarWriter).2).2
      (WriteFile envOK background (.other "*files.Unknown") (Join ["root", "u"])
        (iterate envOK background (.ofList [("l", .symlinkTo "t")] none) "root"
          (writeDirHeader envOK "root" NewTarWriter).2).2).2
      (errNotSupported "*files.Unknown") rfl rfl rfl).1,
    by decide⟩

/-! ## The body bytes across the writer's primitives -/

@[simp] theorem sinkBody_nil : sinkBody [] = [] := rfl

@[simp] theorem sinkBody_append (t u : List Event) :
    sinkBody (t ++ u) = sinkBody t ++ sinkBody u := by
  simp [sinkBody]

@[simp] theorem sinkBody_cons_header (hdr : Header) (t : List Event) :
    sinkBody (.header hdr :: t) = sinkBody t := by
  simp [sinkBody]

@[simp] theorem sinkBody_cons_body (b : List Nat) (t : List Event) :
    sinkBody (.body b :: t) = b ++ sinkBody t := by
  simp [sinkBody]

@[simp] theorem sinkBody_cons_padding (n : Nat) (t : List Event) :
    sinkBody (.padding n :: t) = sinkBody t := by
  simp [sinkBody]

@[simp] theorem sinkBody_cons_spanStart (o : String) (t : List Event) :
    sinkBody (.spanStart o :: t) = sinkBody t := by
  simp [sinkBody]

@[simp] theorem sinkBody_cons_spanTag (k v : String) (t : List Event) :
    sinkBody (.spanTag k v :: t) = sinkBody t := by
  simp [sinkBody]

@[simp] theorem sinkBody_cons_spanFinish (t : List Event) :
    sinkBody (.spanFinish :: t) = sinkBody t := by
  simp [sinkBody]

theorem Flush_sinkBody (env : Env) (s : State) :
    sinkBody (Flush env s).2.trace = sinkBody s.trace := by
  unfold Flush
  repeat' split
  all_goals simp

theorem WriteHeader_sinkBody (env : Env) (hdr : Header) (s : State) :
    sinkBody (WriteHeader env hdr s).2.trace = sinkBody s.trace := by
  have hf := Flush_sinkBody env s
  unfold WriteHeader
  generalize Flush env s = r at hf
  obtain ⟨e, s1⟩ := r
  simp only at hf
  cases e with
  | some e => exact hf
  | none =>
    simp only
    repeat' split
    all_goals simp [hf]

/-- What `WriteHeader` adds to the headers of the sink: the header when it succeeds,
nothing when it fails. -/
theorem WriteHeader_sinkHeaders_cases (env : Env) (hdr : Header) (s : State) :
    sinkHeaders (WriteHeader env hdr s).2.trace =
      sinkHeaders s.trace ++ (if (WriteHeader env hdr s).1 = none then [hdr] else []) := by
  have hf := Flush_sinkHeaders env s
  unfold WriteHeader
  generalize Flush env s = r at hf
  obtain ⟨e, s1⟩ := r
  simp only at hf
  cases e with
  | some e => simp [hf]
  | none =>
    simp only
    by_cases hneg : isHeaderOnlyType hdr.Typeflag = false ∧ hdr.Size < 0
    · simp [if_pos hneg, hf]
    · rw [if_neg hneg]
      cases hs : env.sink s1.trace (.header hdr) with
      | some e => simp [hf]
      | none => simp [hf]

/-! ## The order of the type switch -/

/-- C19: the type switch tries `*Symlink`, then `File`, then `Directory`. A `*Symlink`
node, whatever other interfaces it satisfies, is written by one call of
`writeSymlinkHeader` and nothing else: its `File` methods and its iterator play no part
in the result, it adds at most its one header and no body bytes. A node that is no
`*Symlink` and satisfies `File` is written by `writeFile`, whether or not it also
satisfies `Directory`: its iterator plays no part in the result. -/
theorem dispatch_order (env : Env) (ctx : Context) (tn target : String)
    (f : Option FileData) (fd : FileData) (d : DirFacet) (p : String) (s : State) :
    (WriteFile env ctx (.mk tn (some target) f d) p s =
        ((writeSymlinkHeader env target p (((s.emit (.spanStart "tar write file")).emit
            (.spanTag "path" p)).emit (.spanTag "type" "symlink"))).1,
         (writeSymlinkHeader env target p (((s.emit (.spanStart "tar write file")).emit
            (.spanTag "path" p)).emit (.spanTag "type" "symlink"))).2.emit .spanFinish) ∧
      WriteFile env ctx (.mk tn (some target) f d) p s =
        WriteFile env ctx (.mk tn (some target) none .absent) p s ∧
      sinkBody (WriteFile env ctx (.mk tn (some target) f d) p s).2.trace =
        sinkBody s.trace ∧
      sinkHeaders (WriteFile env ctx (.mk tn (some target) f d) p s).2.trace =
        sinkHeaders s.trace ++
          (if (WriteFile env ctx (.mk tn (some target) f d) p s).1 = none then
            [{ Name := p, Linkname := target, Mode := 0o777, Typeflag := TypeSymlink,
               Size := 0, ModTime := none }]
           else [])) ∧
    (WriteFile env ctx (.mk tn none (some fd) d) p s =
        ((writeFile env fd p (((s.emit (.spanStart "tar write file")).emit
            (.spanTag "path" p)).emit (.spanTag "type" "file"))).1,
         (writeFile env fd p (((s.emit (.spanStart "tar write file")).emit
            (.spanTag "path" p)).emit (.spanTag "type" "file"))).2.emit .spanFinish) ∧
      WriteFile env ctx (.mk tn none (some fd) d) p s =
        WriteFile env ctx (.mk tn none (some fd) .absent) p s) := by
  have hsym : ∀ f1 d1, WriteFile env ctx (.mk tn (some target) f1 d1) p s =
      ((writeSymlinkHeader env target p (((s.emit (.spanStart "tar write file")).emit
          (.spanTag "path" p)).emit (.spanTag "type" "symlink"))).1,
       (writeSymlinkHeader env target p (((s.emit (.spanStart "tar write file")).emit
          (.spanTag "path" p)).emit (.spanTag "type" "symlink"))).2.emit .spanFinish) := by
    intro f1 d1
    unfold WriteFile
    rfl
  have hfile : ∀ d1, WriteFile env ctx (.mk tn none (some fd) d1) p s =
      ((writeFile env fd p (((s.emit (.spanStart "tar write file")).emit
          (.spanTag "path" p)).emit (.spanTag "type" "file"))).1,
       (writeFile env fd p (((s.emit (.spanStart "tar write file")).emit
          (.spanTag "path" p)).emit (.spanTag "type" "file"))).2.emit .spanFinish) := by
    intro d1
    unfold WriteFile
    rfl
  refine ⟨⟨hsym f d, by rw [hsym f d, hsym none .absent], ?_, ?_⟩,
    hfile d, by rw [hfile d, hfile .absent]⟩
  · rw [hsym f d]
    simp [writeSymlinkHeader, WriteHeader_sinkBody]
  · rw [hsym f d]
    simp only [writeSymlinkHeader, emit_trace, sinkHeaders_append,
      sinkHeaders_cons_spanFinish, sinkHeaders_nil, List.append_nil]
    rw [WriteHeader_sinkHeaders_cases]
    simp

/-! ## A failing size lookup -/

/-- C14: when `Size()` of a file node fails with `e`, `WriteFile` returns `e`; the visit
adds only its span to the trace and leaves the writer as it was, so no header and no
body bytes are written for the file. -/
theorem size_error_writes_nothing (env : Env) (ctx : Context) (tn : String)
    (f : FileData) (d : DirFacet) (p : String) (s : State) (e : Error)
    (h : f.size = .error e) :
    WriteFile env ctx (.mk tn none (some f) d) p s =
        (some e, (((s.emit (.spanStart "tar write file")).emit (.spanTag "path" p)).emit
          (.spanTag "type" "file")).emit .spanFinish) ∧
      sinkHeaders (WriteFile env ctx (.mk tn none (some f) d) p s).2.trace =
        sinkHeaders s.trace ∧
      sinkBody (WriteFile env ctx (.mk tn none (some f) d) p s).2.trace = sinkBody s.trace := by
  have hw : WriteFile env ctx (.mk tn none (some f) d) p s =
      (some e, (((s.emit (.spanStart "tar write file")).emit (.spanTag "path" p)).emit
        (.spanTag "type" "file")).emit .spanFinish) := by
    unfold WriteFile
    simp only [writeFile, h]
  refine ⟨hw, ?_, ?_⟩
  · rw [hw]
    simp
  · rw [hw]
    simp

theorem size_error_writes_nothing_witness :
    brokenSizeFile.size = .error "stat failed" ∧
      (WriteFile envOK background (.ofFile brokenSizeFile) "f" NewTarWriter).1 =
        some "stat failed" ∧
      sinkHeaders (WriteFile envOK background (.ofFile brokenSizeFile) "f"
        NewTarWriter).2.trace = [] ∧
      sinkBody (WriteFile envOK background (.ofFile brokenSizeFile) "f"
        NewTarWriter).2.trace = [] :=
  have h := size_error_writes_nothing envOK background "*files.ReaderFile" brokenSizeFile
    .absent "f" NewTarWriter "stat failed" rfl
  ⟨rfl, congrArg Prod.fst h.1, h.2.1, h.2.2⟩

/-! ## Empty directories -/

/-- C18: `WriteFile` on a directory whose iterator yields no children and reports no
error does what `writeDirHeader` does and nothing more; over a sink that never fails,
from a writer with no error and no unfinished entry, it succeeds and adds to the sink
exactly one header, of kind directory and for the given path, and no body bytes. -/
theorem empty_directory_one_entry (env : Env) (ctx : Context) (tn : String) (p : String)
    (s : State) (hsink : ∀ t ev, env.sink t ev = none) (herr : s.err = none)
    (hnb : s.nb = 0) :
    WriteFile env ctx (.mk tn none none (.entries (.done none))) p s =
        ((writeDirHeader env p (((s.emit (.spanStart "tar write file")).emit
            (.spanTag "path" p)).emit (.spanTag "type" "directory"))).1,
         (writeDirHeader env p (((s.emit (.spanStart "tar write file")).emit
            (.spanTag "path" p)).emit (.spanTag "type" "directory"))).2.emit .spanFinish) ∧
      (WriteFile env ctx (.mk tn none none (.entries (.done none))) p s).1 = none ∧
      sinkHeaders (WriteFile env ctx (.mk tn none none (.entries (.done none))) p s).2.trace =
        sinkHeaders s.trace ++
          [{ Name := p, Typeflag := TypeDir, Mode := 0o777,
             ModTime := some (env.clock s.clockReads), Size := 0, Linkname := "" }] ∧
      sinkBody (WriteFile env ctx (.mk tn none none (.entries (.done none))) p s).2.trace =
        sinkBody s.trace := by
  have hw : WriteFile env ctx (.mk tn none none (.entries (.done none))) p s =
      ((writeDirHeader env p (((s.emit (.spanStart "tar write file")).emit
          (.spanTag "path" p)).emit (.spanTag "type" "directory"))).1,
       (writeDirHeader env p (((s.emit (.spanStart "tar write file")).emit
          (.spanTag "path" p)).emit (.spanTag "type" "directory"))).2.emit
            .spanFinish) := by
    rw [WriteFile_dir]
    unfold writeDir
    generalize writeDirHeader env p _ = r
    obtain ⟨e, s1⟩ := r
    cases e <;> simp [iterate]
  obtain ⟨w1, _, _, w4⟩ := WriteHeader_ok env hsink
    { Name := p, Typeflag := TypeDir, Mode := 0o777,
      ModTime := some (timeNow env (((s.emit (.spanStart "tar write file")).emit
        (.spanTag "path" p)).emit (.spanTag "type" "directory"))).1,
      Size := 0, Linkname := "" }
    (timeNow env (((s.emit (.spanStart "tar write file")).emit
        (.spanTag "path" p)).emit (.spanTag "type" "directory"))).2
    herr hnb (Or.inl rfl)
  refine ⟨hw, ?_, ?_, ?_⟩
  · rw [hw]
    exact w1
  · rw [hw]
    simp only [writeDirHeader, emit_trace, sinkHeaders_append, sinkHeaders_cons_spanFinish,
      sinkHeaders_nil, List.append_nil, w4]
    simp [timeNow, State.emit]
  · rw [hw]
    simp [writeDirHeader, WriteHeader_sinkBody, timeNow]

theorem empty_directory_one_entry_witness :
    (∀ t ev, envOK.sink t ev = none) ∧ NewTarWriter.err = none ∧ NewTarWriter.nb = 0 ∧
      (WriteFile envOK background (.mk "dir" none none (.entries (.done none))) "empty"
        NewTarWriter).1 = none ∧
      sinkHeaders (WriteFile envOK background (.mk "dir" none none (.entries (.done none)))
        "empty" NewTarWriter).2.trace =
        [{ Name := "empty", Typeflag := TypeDir, Mode := 0o777, ModTime := some 1000,
           Size := 0, Linkname := "" }] :=
  have h := empty_directory_one_entry envOK background "dir" "empty" NewTarWriter
    (fun _ _ => rfl) rfl rfl
  ⟨fun _ _ => rfl, rfl, rfl, h.2.1, h.2.2.1⟩

/-! ## The context -/

theorem walk_ignores_context (env : Env) (ctx ctx1 : Context) :
    (∀ nd p s, WriteFile env ctx nd p s = WriteFile env ctx1 nd p s) ∧
    (∀ it p s, iterate env ctx it p s = iterate env ctx1 it p s) := by
  apply tree_induction
  · intro tn sl f p s
    unfold WriteFile
    rfl
  · intro tn sl f it ih p s
    cases sl with
    | some target =>
      unfold WriteFile
      rfl
    | none =>
      cases f with
      | some fd =>
        unfold WriteFile
        rfl
      | none =>
        rw [WriteFile_dir, WriteFile_dir]
        unfold writeDir
        generalize writeDirHeader env p _ = r
        obtain ⟨e, s1⟩ := r
        cases e with
        | some e => rfl
        | none =>
          simp only
          rw [ih p s1]
  · intro err p s
    unfold iterate
    rfl
  · intro name node rest ihn ihr p s
    rw [iterate, iterate, ihn]
    generalize WriteFile env ctx1 node (Join [p, name]) s = r
    obtain ⟨e, s1⟩ := r
    cases e with
    | some e => rfl
    | none => exact ihr p s1

/-- C16 (as stated, refuted): with a context that is cancelled before the call,
`WriteFile` still visits every node of the scenario tree, writes all four entries and
returns success. -/
theorem cancelled_context_is_not_observed :
    cancelledCtx.cancelledAfter = some 0 ∧
      (WriteFile envOK cancelledCtx scenarioRoot "root" NewTarWriter).1 = none ∧
      sinkKinds (WriteFile envOK cancelledCtx scenarioRoot "root" NewTarWriter).2.trace =
        [("root", TypeDir), ("root/a", TypeReg), ("root/b", TypeDir),
         ("root/c", TypeSymlink)] := by
  decide

/-- C16 (amended): `WriteFile` does not look at the state of its context. Whether the
context is cancelled at the call, becomes cancelled during the walk or never is,
`WriteFile` returns the same result, visits the same nodes and writes the same entries;
what is written stays in place, since the trace only grows. -/
theorem context_does_not_change_walk (env : Env) (ctx ctx1 : Context) (nd : Node)
    (p : String) (s : State) :
    WriteFile env ctx nd p s = WriteFile env ctx1 nd p s ∧
      s.trace <+: (WriteFile env ctx nd p s).2.trace :=
  ⟨(walk_ignores_context env ctx ctx1).1 nd p s,
    (List.prefix_append _ _).trans ((walk_trace_grows env ctx).1 nd p s)⟩

/-- The `*Symlink` case of `WriteFile` adds its one header when it succeeds and nothing
when it fails. -/
theorem dispatch_sym (env : Env) (ctx : Context) (tn target : String)
    (f : Option FileData) (d : DirFacet) (p : String) (s : State) :
    sinkHeaders (WriteFile env ctx (.mk tn (some target) f d) p s).2.trace =
      sinkHeaders s.trace ++
        (if (WriteFile env ctx (.mk tn (some target) f d) p s).1 = none then
          [{ Name := p, Linkname := target, Mode := 0o777, Typeflag := TypeSymlink,
             Size := 0, ModTime := none }]
         else []) := by
  have hsym : WriteFile env ctx (.mk tn (some target) f d) p s =
      ((writeSymlinkHeader env target p (((s.emit (.spanStart "tar write file")).emit
          (.spanTag "path" p)).emit (.spanTag "type" "symlink"))).1,
       (writeSymlinkHeader env target p (((s.emit (.spanStart "tar write file")).emit
          (.spanTag "path" p)).emit (.spanTag "type" "symlink"))).2.emit .spanFinish) := by
    unfold WriteFile
    rfl
  rw [hsym]
  simp only [writeSymlinkHeader, emit_trace, sinkHeaders_append,
    sinkHeaders_cons_spanFinish, sinkHeaders_nil, List.append_nil]
  rw [WriteHeader_sinkHeaders_cases]
  simp

/-! ## The header of a visit -/

theorem sinkHeaders_of_trace_grows (t u : List Event) (h : t <+: u) :
    ∃ more, sinkHeaders u = sinkHeaders t ++ more := by
  obtain ⟨d, rfl⟩ := h
  exact ⟨sinkHeaders d, sinkHeaders_append t d⟩

/-- What `writeFile` adds to the headers of the sink: nothing, or the one header of the
file. -/
theorem writeFile_sinkHeaders_cases (env : Env) (f : FileData) (p : String) (s : State) :
    sinkHeaders (writeFile env f p s).2.trace = sinkHeaders s.trace ∨
      ∃ size, f.size = .ok size ∧
        sinkHeaders (writeFile env f p s).2.trace = sinkHeaders s.trace ++
          [{ Name := p, Size := toInt64 (toUint64 size), Typeflag := TypeReg, Mode := 0o644,
             ModTime := some (env.clock s.clockReads), Linkname := "" }] := by
  unfold writeFile
  cases hsz : f.size with
  | error e => exact Or.inl rfl
  | ok size =>
    simp only
    have hh := WriteHeader_sinkHeaders_cases env
      { Name := p, Size := toInt64 (toUint64 size), Typeflag := TypeReg, Mode := 0o644,
        ModTime := some (timeNow env s).1, Linkname := "" } (timeNow env s).2
    unfold writeFileHeader
    generalize WriteHeader env _ (timeNow env s).2 = r at hh
    obtain ⟨e, s1⟩ := r
    cases e with
    | some e =>
      left
      simpa [timeNow] using hh
    | none =>
      right
      refine ⟨size, rfl, ?_⟩
      have hc := ioCopy_sinkHeaders env f.reads f.readErr s1
      simp only
      generalize ioCopy env f.reads f.readErr s1 = r2 at hc
      obtain ⟨e2, s2⟩ := r2
      simp only at hc
      cases e2 with
      | some e2 =>
        simp only
        rw [hc]
        simpa [timeNow] using hh
      | none =>
        simp only
        rw [Flush_sinkHeaders, hc]
        simpa [timeNow] using hh

/-- The headers a visit adds to the sink start with the header of the visited node:
for a `*Symlink` it is the only one. -/
theorem visit_headers (env : Env) (ctx : Context) (tn : String) (sl : Option String)
    (f : Option FileData) (d : DirFacet) (p : String) (s : State) :
    ∃ tail, sinkHeaders (WriteFile env ctx (.mk tn sl f d) p s).2.trace =
        sinkHeaders s.trace ++ tail ∧
      ∀ hdr, tail.head? = some hdr →
        (∀ target, sl = some target →
          tail = [hdr] ∧
          hdr = { Name := p, Linkname := target, Mode := 0o777, Typeflag := TypeSymlink,
                  Size := 0, ModTime := none }) ∧
        (∀ fd, sl = none → f = some fd →
          ∃ size, fd.size = .ok size ∧
            hdr = { Name := p, Size := toInt64 (toUint64 size), Typeflag := TypeReg,
                    Mode := 0o644, ModTime := some (env.clock s.clockReads),
                    Linkname := "" }) ∧
        (sl = none → f = none →
          hdr = { Name := p, Typeflag := TypeDir, Mode := 0o777,
                  ModTime := some (env.clock s.clockReads), Size := 0, Linkname := "" }) := by
  cases sl with
  | some target =>
    have hw := (dispatch_sym env ctx tn target f d p s)
    by_cases hok : (WriteFile env ctx (.mk tn (some target) f d) p s).1 = none
    · rw [if_pos hok] at hw
      refine ⟨_, hw, ?_⟩
      intro hdr hhead
      simp only [List.head?_cons, Option.some.injEq] at hhead
      subst hhead
      exact ⟨fun t ht => by simp at ht; subst ht; exact ⟨rfl, rfl⟩,
        fun fd h => by simp at h, fun h => by simp at h⟩
    · rw [if_neg hok] at hw
      exact ⟨[], hw, fun hdr hh => by simp at hh⟩
  | none =>
    cases f with
    | some fd =>
      have hw : WriteFile env ctx (.mk tn none (some fd) d) p s =
          ((writeFile env fd p (((s.emit (.spanStart "tar write file")).emit
              (.spanTag "path" p)).emit (.spanTag "type" "file"))).1,
           (writeFile env fd p (((s.emit (.spanStart "tar write file")).emit
              (.spanTag "path" p)).emit (.spanTag "type" "file"))).2.emit
                .spanFinish) := by
        unfold WriteFile
        rfl
      rcases writeFile_sinkHeaders_cases env fd p
        (((s.emit (.spanStart "tar write file")).emit (.spanTag "path" p)).emit
          (.spanTag "type" "file")) with h | ⟨size, hsize, h⟩
      · refine ⟨[], ?_, fun hdr hh => by simp at hh⟩
        rw [hw]
        simpa using h
      · have hex : ∃ h0 : Header, h0 =
            { Name := p, Size := toInt64 (toUint64 size), Typeflag := TypeReg,
              Mode := 0o644, ModTime := some (env.clock s.clockReads), Linkname := "" } :=
          ⟨_, rfl⟩
        obtain ⟨h0, hh0⟩ := hex
        refine ⟨[h0], ?_, ?_⟩
        · rw [hw, hh0]
          simpa [State.emit] using h
        · subst hh0
          intro hdr hhead
          simp only [List.head?_cons, Option.some.injEq] at hhead
          subst hhead
          refine ⟨fun t ht => by simp at ht, fun fd1 _ h1 => ?_, fun _ h1 => by simp at h1⟩
          simp only [Option.some.injEq] at h1
          subst h1
          exact ⟨size, hsize, rfl⟩
    | none =>
      cases d with
      | absent =>
        refine ⟨[], ?_, fun hdr hh => by simp at hh⟩
        unfold WriteFile
        simp
      | entries it =>
        have hh := WriteHeader_sinkHeaders_cases env
          { Name := p, Typeflag := TypeDir, Mode := 0o777,
            ModTime := some (timeNow env (((s.emit (.spanStart "tar write file")).emit
              (.spanTag "path" p)).emit (.spanTag "type" "directory"))).1,
            Size := 0, Linkname := "" }
          (timeNow env (((s.emit (.spanStart "tar write file")).emit
              (.spanTag "path" p)).emit (.spanTag "type" "directory"))).2
        rw [WriteFile_dir]
        unfold writeDir writeDirHeader
        generalize WriteHeader env _ (timeNow env _).2 = r at hh
        obtain ⟨e, s1⟩ := r
        cases e with
        | some e =>
          refine ⟨[], ?_, fun hdr hh => by simp at hh⟩
          simpa [timeNow] using hh
        | none =>
          simp only at hh ⊢
          obtain ⟨more, hmore⟩ := sinkHeaders_of_trace_grows _ _
            ((walk_trace_grows env ctx).2 it p s1)
          have hex : ∃ h0 : Header, h0 =
              { Name := p, Typeflag := TypeDir, Mode := 0o777,
                ModTime := some (env.clock s.clockReads), Size := 0, Linkname := "" } :=
            ⟨_, rfl⟩
          obtain ⟨h0, hh0⟩ := hex
          refine ⟨h0 :: more, ?_, ?_⟩
          · subst hh0
            simp only [emit_trace, sinkHeaders_append, sinkHeaders_cons_spanFinish,
              sinkHeaders_nil, List.append_nil, hmore, hh]
            simp [timeNow, State.emit]
          · subst hh0
            intro hdr hhead
            simp only [List.head?_cons, Option.some.injEq] at hhead
            subst hhead
            exact ⟨fun t ht => by simp at ht, fun fd h1 h2 => by simp at h2, fun _ _ => rfl⟩

/-- C12: the three helpers hand to `WriteHeader` a header whose name is the given path,
with kind directory, size 0 and mode 0777 for a directory, kind regular and mode 0644
for a file, kind symlink, size 0, mode 0777 and the node's target as link name for a
symlink. The first header a visit adds to the sink, if any, has these fields according
to the kind of the visited node; the visit of a symlink adds no other header and no body
bytes. -/
theorem header_fields_by_kind (env : Env) (ctx : Context) (tn : String)
    (sl : Option String) (f : Option FileData) (d : DirFacet) (p : String) (s : State) :
    (∀ q t, writeDirHeader env q t = WriteHeader env
      { Name := q, Typeflag := TypeDir, Mode := 0o777,
        ModTime := some (env.clock t.clockReads), Size := 0, Linkname := "" }
      (timeNow env t).2) ∧
    (∀ q size t, writeFileHeader env q size t = WriteHeader env
      { Name := q, Size := toInt64 size, Typeflag := TypeReg, Mode := 0o644,
        ModTime := some (env.clock t.clockReads), Linkname := "" }
      (timeNow env t).2) ∧
    (∀ target q t, writeSymlinkHeader env target q t = WriteHeader env
      { Name := q, Linkname := target, Mode := 0o777, Typeflag := TypeSymlink,
        Size := 0, ModTime := none } t) ∧
    ∃ tail, sinkHeaders (WriteFile env ctx (.mk tn sl f d) p s).2.trace =
        sinkHeaders s.trace ++ tail ∧
      ∀ hdr, tail.head? = some hdr →
        hdr.Name = p ∧
        (∀ target, sl = some target →
          hdr.Typeflag = TypeSymlink ∧ hdr.Size = 0 ∧ hdr.Mode = 0o777 ∧
            hdr.Linkname = target ∧ tail = [hdr] ∧
            sinkBody (WriteFile env ctx (.mk tn sl f d) p s).2.trace = sinkBody s.trace) ∧
        (sl = none → f ≠ none → hdr.Typeflag = TypeReg ∧ hdr.Mode = 0o644) ∧
        (sl = none → f = none →
          hdr.Typeflag = TypeDir ∧ hdr.Size = 0 ∧ hdr.Mode = 0o777) := by
  refine ⟨fun _ _ => rfl, fun _ _ _ => rfl, fun _ _ _ => rfl, ?_⟩
  obtain ⟨tail, htail, hfirst⟩ := visit_headers env ctx tn sl f d p s
  refine ⟨tail, htail, fun hdr hhead => ?_⟩
  obtain ⟨h1, h2, h3⟩ := hfirst hdr hhead
  cases sl with
  | some target =>
    obtain ⟨ht, hh⟩ := h1 target rfl
    subst hh
    refine ⟨rfl, fun t ht1 => ?_, fun h => by simp at h, fun h => by simp at h⟩
    simp only [Option.some.injEq] at ht1
    subst ht1
    refine ⟨rfl, rfl, rfl, rfl, ht, ?_⟩
    have hw : WriteFile env ctx (.mk tn (some target) f d) p s =
        ((writeSymlinkHeader env target p (((s.emit (.spanStart "tar write file")).emit
            (.spanTag "path" p)).emit (.spanTag "type" "symlink"))).1,
         (writeSymlinkHeader env target p (((s.emit (.spanStart "tar write file")).emit
            (.spanTag "path" p)).emit (.spanTag "type" "symlink"))).2.emit
              .spanFinish) := by
      unfold WriteFile
      rfl
    rw [hw]
    simp [writeSymlinkHeader, WriteHeader_sinkBody]
  | none =>
    cases f with
    | some fd =>
      obtain ⟨size, _, hh⟩ := h2 fd rfl rfl
      subst hh
      exact ⟨rfl, fun t ht => by simp at ht, fun _ _ => ⟨rfl, rfl⟩, fun _ h => by simp at h⟩
    | none =>
      have hh := h3 rfl rfl
      subst hh
      exact ⟨rfl, fun t ht => by simp at ht, fun _ h => by simp at h,
        fun _ _ => ⟨rfl, rfl, rfl⟩⟩

/-! ## The size conversions -/

/-- On every value of a signed 64-bit integer the conversions `uint64(size)` and then
`int64(size)` give the value back. -/
theorem toInt64_toUint64_int64 (v : Int) (hlo : -2 ^ 63 ≤ v) (hhi : v < 2 ^ 63) :
    toInt64 (toUint64 v) = v := by
  unfold toInt64 toUint64
  have hnn : 0 ≤ v % 2 ^ 64 := Int.emod_nonneg v (by norm_num)
  have hlt : v % 2 ^ 64 < 2 ^ 64 := Int.emod_lt_of_pos v (by norm_num)
  have hcast : (((v % 2 ^ 64).toNat : Nat) : Int) = v % 2 ^ 64 := Int.toNat_of_nonneg hnn
  have hmod : (v % 2 ^ 64).toNat % 2 ^ 64 = (v % 2 ^ 64).toNat := by
    apply Nat.mod_eq_of_lt
    omega
  rw [hmod, hcast]
  by_cases hv : 0 ≤ v
  · have : v % 2 ^ 64 = v := Int.emod_eq_of_lt hv (by omega)
    rw [if_pos (by omega), this]
  · have : v % 2 ^ 64 = v + 2 ^ 64 := by omega
    rw [if_neg (by omega), this]
    omega

/-- A value from `2^63` up to the largest unsigned 64-bit integer does not survive the
conversions: it comes back lowered by `2^64`, hence negative. -/
theorem toInt64_toUint64_high (w : Int) (hlo : 2 ^ 63 ≤ w) (hhi : w < 2 ^ 64) :
    toInt64 (toUint64 w) = w - 2 ^ 64 := by
  unfold toInt64 toUint64
  have hw : w % 2 ^ 64 = w := Int.emod_eq_of_lt (by omega) hhi
  have hcast : (((w % 2 ^ 64).toNat : Nat) : Int) = w := by
    rw [hw]
    exact Int.toNat_of_nonneg (by omega)
  have hmod : (w % 2 ^ 64).toNat % 2 ^ 64 = (w % 2 ^ 64).toNat := by
    apply Nat.mod_eq_of_lt
    omega
  rw [hmod, hcast, if_neg (by omega)]

/-- C13 (as stated, refuted): for a file whose `Size()` returns `2^63`, a value of a
64-bit unsigned integer, the header `writeFileHeader` hands to `WriteHeader` has size
`-2^63`; `archive/tar` refuses it, so `WriteFile` fails and writes no header. -/
theorem size_from_2_pow_63_wraps :
    wrappingFile.declaredSize = 9223372036854775808 ∧
      writeFileHeader envOK "f" (toUint64 9223372036854775808) NewTarWriter =
        WriteHeader envOK
          { Name := "f", Size := -9223372036854775808, Typeflag := TypeReg, Mode := 0o644,
            ModTime := some 1000, Linkname := "" } (timeNow envOK NewTarWriter).2 ∧
      (WriteFile envOK background (.ofFile wrappingFile) "f" NewTarWriter).1 =
        some errNegativeSize ∧
      sinkHeaders (WriteFile envOK background (.ofFile wrappingFile) "f"
        NewTarWriter).2.trace = [] :=
  ⟨by decide, rfl, by decide, by decide⟩

/-- C13 (amended): for every value `v` that `Size()` returns in the range of a signed
64-bit integer, the header `writeFile` hands to `WriteHeader` through `writeFileHeader`
has size `v`, and the header the visit of the file adds to the sink, if any, has size
`v`. A value `w` from `2^63` up to the largest unsigned 64-bit integer gives the size
`w - 2^64`. -/
theorem file_header_size (env : Env) (ctx : Context) (tn : String) (fd : FileData)
    (d : DirFacet) (p : String) (s : State) (v : Int) (hlo : -2 ^ 63 ≤ v)
    (hhi : v < 2 ^ 63) (hsize : fd.size = .ok v) :
    writeFileHeader env p (toUint64 v) s = WriteHeader env
        { Name := p, Size := v, Typeflag := TypeReg, Mode := 0o644,
          ModTime := some (env.clock s.clockReads), Linkname := "" } (timeNow env s).2 ∧
      (∃ tail, sinkHeaders (WriteFile env ctx (.mk tn none (some fd) d) p s).2.trace =
          sinkHeaders s.trace ++ tail ∧
        ∀ hdr, tail.head? = some hdr → hdr.Size = v) ∧
      (∀ w : Int, 2 ^ 63 ≤ w → w < 2 ^ 64 →
        writeFileHeader env p (toUint64 w) s = WriteHeader env
          { Name := p, Size := w - 2 ^ 64, Typeflag := TypeReg, Mode := 0o644,
            ModTime := some (env.clock s.clockReads), Linkname := "" }
          (timeNow env s).2) := by
  have hconv := toInt64_toUint64_int64 v hlo hhi
  refine ⟨?_, ?_, ?_⟩
  · unfold writeFileHeader
    rw [hconv]
    rfl
  · obtain ⟨tail, htail, hfirst⟩ := visit_headers env ctx tn none (some fd) d p s
    refine ⟨tail, htail, fun hdr hhead => ?_⟩
    obtain ⟨size, hs, hh⟩ := (hfirst hdr hhead).2.1 fd rfl rfl
    rw [hsize] at hs
    simp only [Except.ok.injEq] at hs
    subst hs
    rw [hh]
    exact hconv
  · intro w hwlo hwhi
    unfold writeFileHeader
    rw [toInt64_toUint64_high w hwlo hwhi]
    rfl

theorem file_header_size_witness :
    (-2 ^ 63 : Int) ≤ 9223372036854775807 ∧ (9223372036854775807 : Int) < 2 ^ 63 ∧
      hugeFile.size = .ok 9223372036854775807 ∧
      (sinkHeaders (WriteFile envOK background (.ofFile hugeFile) "f"
        NewTarWriter).2.trace).map (fun hdr => hdr.Size) = [9223372036854775807] ∧
      writeFileHeader envOK "f" (toUint64 9223372036854775807) NewTarWriter =
        WriteHeader envOK
          { Name := "f", Size := 9223372036854775807, Typeflag := TypeReg, Mode := 0o644,
            ModTime := some (envOK.clock NewTarWriter.clockReads), Linkname := "" }
          (timeNow envOK NewTarWriter).2 :=
  ⟨by decide, by decide, rfl, by decide,
    (file_header_size envOK background "*files.ReaderFile" hugeFile .absent "f"
      NewTarWriter 9223372036854775807 (by decide) (by decide) rfl).1⟩

/-! ## Modification times -/

/-- C15 (as stated, refuted): the header of a symlink carries no modification time. With
a clock that reads 1000, the header written for a symlink has the zero time, not the
clock reading. -/
theorem symlink_header_has_no_mtime :
    envOK.clock NewTarWriter.clockReads = 1000 ∧
      sinkHeaders (WriteFile envOK background (.symlinkTo "a") "l" NewTarWriter).2.trace =
        [{ Name := "l", Linkname := "a", Mode := 0o777, Typeflag := TypeSymlink, Size := 0,
           ModTime := none }] := by
  decide

/-! ## Zero-byte files -/

theorem ioCopy_empty (env : Env) (reads : List (List Nat)) (readErr : Option Error)
    (s : State) (h : ∀ chunk ∈ reads, chunk = []) :
    ioCopy env reads readErr s = (readErr, s) := by
  induction reads with
  | nil => rfl
  | cons chunk rest ih =>
    have hc : chunk = [] := h chunk (by simp)
    subst hc
    rw [ioCopy]
    simp only [List.length_nil, lt_irrefl, if_false]
    exact ih fun c hcm => h c (by simp [hcm])

@[simp] theorem sinkBytes_append (blocks : Header → Nat) (t u : List Event) :
    sinkBytes blocks (t ++ u) = sinkBytes blocks t + sinkBytes blocks u := by
  simp [sinkBytes]

@[simp] theorem sinkBytes_nil (blocks : Header → Nat) : sinkBytes blocks [] = 0 := rfl

@[simp] theorem sinkBytes_cons (blocks : Header → Nat) (ev : Event) (t : List Event) :
    sinkBytes blocks (ev :: t) = eventBytes blocks ev + sinkBytes blocks t := by
  simp [sinkBytes]

/-- C17: over a sink that never fails, from a writer with no error and no unfinished
entry, `WriteFile` on a file that declares size 0 and whose stream delivers no byte
succeeds; it adds to the sink one regular-file header with size 0 and no body bytes; the
bytes it writes are the padding still owed to the previous entry and the blocks of the
header, a multiple of 512 when no padding was owed, and the sink then holds a multiple
of 512 bytes whenever what it held plus the padding owed was one. -/
theorem zero_byte_file_aligned (env : Env) (ctx : Context) (blocks : Header → Nat)
    (tn : String) (fd : FileData) (d : DirFacet) (p : String) (s : State)
    (hsink : ∀ t ev, env.sink t ev = none) (herr : s.err = none) (hnb : s.nb = 0)
    (hsize : fd.size = .ok 0) (hstream : ∀ chunk ∈ fd.reads, chunk = [])
    (heof : fd.readErr = none) :
    (WriteFile env ctx (.mk tn none (some fd) d) p s).1 = none ∧
      sinkHeaders (WriteFile env ctx (.mk tn none (some fd) d) p s).2.trace =
        sinkHeaders s.trace ++
          [{ Name := p, Size := 0, Typeflag := TypeReg, Mode := 0o644,
             ModTime := some (env.clock s.clockReads), Linkname := "" }] ∧
      sinkBody (WriteFile env ctx (.mk tn none (some fd) d) p s).2.trace =
        sinkBody s.trace ∧
      sinkBytes blocks (WriteFile env ctx (.mk tn none (some fd) d) p s).2.trace =
        sinkBytes blocks s.trace + s.pad +
          512 * blocks { Name := p, Size := 0, Typeflag := TypeReg, Mode := 0o644,
                         ModTime := some (env.clock s.clockReads), Linkname := "" } ∧
      (s.pad = 0 →
        512 ∣ sinkBytes blocks (WriteFile env ctx (.mk tn none (some fd) d) p s).2.trace -
          sinkBytes blocks s.trace) ∧
      (512 ∣ sinkBytes blocks s.trace + s.pad →
        512 ∣ sinkBytes blocks (WriteFile env ctx (.mk tn none (some fd) d) p s).2.trace) := by
  have h0 : toInt64 (toUint64 0) = 0 := by decide
  have hreg : isHeaderOnlyType TypeReg = false := by decide
  have hpad0 : blockPadding 0 = 0 := by decide
  have hrun : (WriteFile env ctx (.mk tn none (some fd) d) p s).1 = none ∧
      (WriteFile env ctx (.mk tn none (some fd) d) p s).2.trace =
        s.trace ++ [.spanStart "tar write file", .spanTag "path" p, .spanTag "type" "file"] ++
          (if s.pad = 0 then [] else [.padding s.pad]) ++
          [.header { Name := p, Size := 0, Typeflag := TypeReg, Mode := 0o644,
                     ModTime := some (env.clock s.clockReads), Linkname := "" },
           .spanFinish] := by
    have hio : ∀ re st, ioCopy env fd.reads re st = (re, st) :=
      fun re st => ioCopy_empty env fd.reads re st hstream
    unfold WriteFile
    by_cases hp : s.pad = 0
    · simp [writeFile, hsize, writeFileHeader, WriteHeader, Flush, timeNow, State.emit, herr,
        hnb, hp, hsink, h0, hreg, hpad0, hio, heof]
    · simp [writeFile, hsize, writeFileHeader, WriteHeader, Flush, timeNow, State.emit, herr,
        hnb, hp, hsink, h0, hreg, hpad0, hio, heof]
  obtain ⟨hok, htrace⟩ := hrun
  have hbytes : sinkBytes blocks (WriteFile env ctx (.mk tn none (some fd) d) p s).2.trace =
      sinkBytes blocks s.trace + s.pad +
        512 * blocks { Name := p, Size := 0, Typeflag := TypeReg, Mode := 0o644,
                       ModTime := some (env.clock s.clockReads), Linkname := "" } := by
    rw [htrace]
    by_cases hp : s.pad = 0
    · simp [hp, eventBytes]
    · simp [hp, eventBytes]
      omega
  refine ⟨hok, ?_, ?_, hbytes, ?_, ?_⟩
  · rw [htrace]
    by_cases hp : s.pad = 0 <;> simp [hp]
  · rw [htrace]
    by_cases hp : s.pad = 0 <;> simp [hp]
  · intro hp
    rw [hbytes, hp]
    simp
  · intro hal
    rw [hbytes]
    exact Dvd.dvd.add hal (Dvd.intro _ rfl)

theorem zero_byte_file_aligned_witness :
    (∀ t ev, envOK.sink t ev = none) ∧ NewTarWriter.err = none ∧ NewTarWriter.nb = 0 ∧
      (FileData.ofBytes []).size = .ok 0 ∧
      (WriteFile envOK background (.ofFile (.ofBytes [])) "empty.txt" NewTarWriter).1 = none ∧
      sinkBytes (fun _ => 1) (WriteFile envOK background (.ofFile (.ofBytes [])) "empty.txt"
        NewTarWriter).2.trace = 512 :=
  have h := zero_byte_file_aligned envOK background (fun _ => 1) "*files.ReaderFile"
    (.ofBytes []) .absent "empty.txt" NewTarWriter (fun _ _ => rfl) rfl rfl rfl
    (by simp [FileData.ofBytes]) rfl
  ⟨fun _ _ => rfl, rfl, rfl, rfl, h.1, h.2.2.2.1⟩

/-! ## Errors on the way up -/

theorem ioCopy_append (env : Env) (pre l : List (List Nat)) (re : Option Error)
    (s s1 : State) (h : ioCopy env pre none s = (none, s1)) :
    ioCopy env (pre ++ l) re s = ioCopy env l re s1 := by
  induction pre generalizing s with
  | nil =>
    simp only [ioCopy, Prod.mk.injEq, true_and] at h
    subst h
    rfl
  | cons chunk rest ih =>
    simp only [List.cons_append]
    rw [ioCopy] at h ⊢
    split
    · rename_i hpos
      rw [if_pos hpos] at h
      generalize Write env chunk s = r at h ⊢
      obtain ⟨nw, ew, s2⟩ := r
      cases ew with
      | some e => simp at h
      | none =>
        simp only at h ⊢
        split
        · rename_i hne
          rw [if_pos hne] at h
          simp at h
        · rename_i hne
          rw [if_neg hne] at h
          exact ih s2 h
    · rename_i hpos
      rw [if_neg hpos] at h
      exact ih s h

theorem ioCopy_read_error (env : Env) (reads : List (List Nat)) (e : Error) (s : State)
    (h : (ioCopy env reads none s).1 = none) :
    (ioCopy env reads (some e) s).1 = some e := by
  have hp : ioCopy env reads none s = (none, (ioCopy env reads none s).2) :=
    Prod.ext h rfl
  have := ioCopy_append env reads [] (some e) s _ hp
  rw [List.append_nil] at this
  rw [this]
  rfl

theorem visits_error (env : Env) (ctx : Context) (nd : Node) (p : String) (s : State)
    (nd1 : Node) (p1 : String) (s1 : State) (e : Error)
    (hv : Visits env ctx nd p s nd1 p1 s1)
    (he : (WriteFile env ctx nd1 p1 s1).1 = some e) :
    (WriteFile env ctx nd p s).1 = some e := by
  induction hv with
  | here nd p s => exact he
  | child tn pre name c rest err p s s0 s1 nd1 p1 s2 hhdr hpre _ ih =>
    have hc := ih he
    rw [WriteFile_dir]
    unfold writeDir
    rw [hhdr]
    simp only
    rw [iterate_append env ctx pre _ err p s0 s1 hpre]
    simp only [Entries.ofList]
    rw [iterate]
    generalize WriteFile env ctx c (Join [p, name]) s1 = r at hc
    obtain ⟨e1, s3⟩ := r
    simp only at hc
    subst hc
    rfl

/-- An error on its way up: when the walk of a tree makes a visit, at whatever depth,
that returns an error, the top-level `WriteFile` returns that very error. The error a
visit returns is the error of its failing step, unchanged: of the size lookup, of the
header write, of the body copy, of the iterator. The steps in turn return what the sink and the reader
report: `WriteHeader` the error of the sink on the header or of the flush before it,
`Flush` the error of the sink on the padding, `Write` the error of the sink on the body
bytes, `io.Copy` the error of the failing `Write` or else of the reader. -/
theorem error_returned_unchanged (env : Env) (ctx : Context) (nd : Node) (p : String)
    (s : State) (nd1 : Node) (p1 : String) (s1 : State) (e : Error)
    (hv : Visits env ctx nd p s nd1 p1 s1)
    (he : (WriteFile env ctx nd1 p1 s1).1 = some e) :
    (WriteFile env ctx nd p s).1 = some e ∧
      (∀ tn f d q t e1, f.size = .error e1 →
        (WriteFile env ctx (.mk tn none (some f) d) q t).1 = some e1) ∧
      (∀ tn f d q t size e1, f.size = .ok size →
        (writeFileHeader env q (toUint64 size) (((t.emit (.spanStart "tar write file")).emit
          (.spanTag "path" q)).emit (.spanTag "type" "file"))).1 = some e1 →
        (WriteFile env ctx (.mk tn none (some f) d) q t).1 = some e1) ∧
      (∀ tn f d q t size t1 e1, f.size = .ok size →
        writeFileHeader env q (toUint64 size) (((t.emit (.spanStart "tar write file")).emit
          (.spanTag "path" q)).emit (.spanTag "type" "file")) = (none, t1) →
        (ioCopy env f.reads f.readErr t1).1 = some e1 →
        (WriteFile env ctx (.mk tn none (some f) d) q t).1 = some e1) ∧
      (∀ tn target f d q t e1,
        (writeSymlinkHeader env target q (((t.emit (.spanStart "tar write file")).emit
          (.spanTag "path" q)).emit (.spanTag "type" "symlink"))).1 = some e1 →
        (WriteFile env ctx (.mk tn (some target) f d) q t).1 = some e1) ∧
      (∀ tn it q t e1,
        (writeDirHeader env q (((t.emit (.spanStart "tar write file")).emit
          (.spanTag "path" q)).emit (.spanTag "type" "directory"))).1 = some e1 →
        (WriteFile env ctx (.mk tn none none (.entries it)) q t).1 = some e1) ∧
      (∀ tn l q t t0 t1 e1,
        writeDirHeader env q (((t.emit (.spanStart "tar write file")).emit
          (.spanTag "path" q)).emit (.spanTag "type" "directory")) = (none, t0) →
        iterate env ctx (.ofList l none) q t0 = (none, t1) →
        (WriteFile env ctx (.mk tn none none (.entries (.ofList l (some e1)))) q t).1 =
          some e1) ∧
      (∀ hdr t t1 e1, Flush env t = (none, t1) →
        ¬ (isHeaderOnlyType hdr.Typeflag = false ∧ hdr.Size < 0) →
        env.sink t1.trace (.header hdr) = some e1 → (WriteHeader env hdr t).1 = some e1) ∧
      (∀ hdr t e1, (Flush env t).1 = some e1 → (WriteHeader env hdr t).1 = some e1) ∧
      (∀ t e1, t.err = none → t.nb = 0 → t.pad ≠ 0 →
        env.sink t.trace (.padding t.pad) = some e1 → (Flush env t).1 = some e1) ∧
      (∀ b t e1, t.err = none → 0 < b.length → b.length ≤ t.nb →
        env.sink t.trace (.body b) = some e1 → (Write env b t).2.1 = some e1) ∧
      (∀ pre chunk rest re t t1 e1, ioCopy env pre none t = (none, t1) →
        0 < chunk.length → (Write env chunk t1).2.1 = some e1 →
        (ioCopy env (pre ++ chunk :: rest) re t).1 = some e1) ∧
      (∀ reads t e1, (ioCopy env reads none t).1 = none →
        (ioCopy env reads (some e1) t).1 = some e1) := by
  refine ⟨visits_error env ctx nd p s nd1 p1 s1 e hv he, ?_, ?_, ?_, ?_, ?_, ?_, ?_, ?_, ?_,
    ?_, ?_, fun reads t e1 => ioCopy_read_error env reads e1 t⟩
  · intro tn f d q t e1 h
    unfold WriteFile
    simp [writeFile, h]
  · intro tn f d q t size e1 h1 h2
    unfold WriteFile
    simp only [writeFile, h1]
    generalize writeFileHeader env q (toUint64 size) _ = r at h2
    obtain ⟨e2, t1⟩ := r
    simp only at h2
    subst h2
    rfl
  · intro tn f d q t size t1 e1 h1 h2 h3
    unfold WriteFile
    simp only [writeFile, h1, h2]
    generalize ioCopy env f.reads f.readErr t1 = r at h3
    obtain ⟨e2, t2⟩ := r
    simp only at h3
    subst h3
    rfl
  · intro tn target f d q t e1 h
    unfold WriteFile
    exact h
  · intro tn it q t e1 h
    rw [WriteFile_dir]
    unfold writeDir
    generalize writeDirHeader env q _ = r at h
    obtain ⟨e2, t1⟩ := r
    simp only at h
    subst h
    rfl
  · intro tn l q t t0 t1 e1 h1 h2
    rw [WriteFile_dir]
    unfold writeDir
    rw [h1]
    simp only
    rw [iterate_ofList_err env ctx l e1 q t0 t1 h2]
  · intro hdr t t1 e1 h1 h2 h3
    unfold WriteHeader
    rw [h1]
    simp only [if_neg h2, h3]
  · intro hdr t e1 h
    unfold WriteHeader
    generalize Flush env t = r at h
    obtain ⟨e2, t1⟩ := r
    simp only at h
    subst h
    rfl
  · intro t e1 h1 h2 h3 h4
    unfold Flush
    simp [h1, h2, h3, h4]
  · intro b t e1 h1 h2 h3 h4
    unfold Write
    have hd : decide (t.nb < b.length) = false := by simpa using h3
    simp [h1, hd, h2, h4]
  · intro pre chunk rest re t t1 e1 h1 h2 h3
    rw [ioCopy_append env pre _ re t t1 h1, ioCopy, if_pos h2]
    generalize Write env chunk t1 = r at h3
    obtain ⟨nw, ew, t2⟩ := r
    simp only at h3
    subst h3
    rfl

theorem error_returned_unchanged_witness :
    Visits envOK background topDir "top" NewTarWriter (.ofFile brokenSizeFile)
        (Join [Join ["top", "d"], "f"]) innerState0 ∧
      (WriteFile envOK background (.ofFile brokenSizeFile) (Join [Join ["top", "d"], "f"])
        innerState0).1 = some "stat failed" ∧
      (WriteFile envOK background topDir "top" NewTarWriter).1 = some "stat failed" :=
  have hv : Visits envOK background topDir "top" NewTarWriter (.ofFile brokenSizeFile)
      (Join [Join ["top", "d"], "f"]) innerState0 :=
    Visits.child "dir" [("l", .symlinkTo "t")] "d" innerDir [] none "top" NewTarWriter
      topState0 topState1 (.ofFile brokenSizeFile) (Join [Join ["top", "d"], "f"])
      innerState0 rfl rfl
      (Visits.child "dir" [] "f" (.ofFile brokenSizeFile) [("m", .symlinkTo "t")] none
        (Join ["top", "d"]) topState1 innerState0 innerState0 (.ofFile brokenSizeFile)
        (Join [Join ["top", "d"], "f"]) innerState0 rfl rfl (Visits.here _ _ _))
  ⟨hv, by decide,
    (error_returned_unchanged envOK background topDir "top" NewTarWriter
      (.ofFile brokenSizeFile) (Join [Join ["top", "d"], "f"]) innerState0 "stat failed" hv
      (by decide)).1⟩

/-! ## Clock readings along a walk -/

@[simp] theorem emit_clockReads (s : State) (ev : Event) :
    (s.emit ev).clockReads = s.clockReads := rfl

theorem Flush_clockReads (env : Env) (s : State) :
    (Flush env s).2.clockReads = s.clockReads := by
  unfold Flush
  repeat' split
  all_goals rfl

theorem WriteHeader_clockReads (env : Env) (hdr : Header) (s : State) :
    (WriteHeader env hdr s).2.clockReads = s.clockReads := by
  have hf := Flush_clockReads env s
  unfold WriteHeader
  generalize Flush env s = r at hf
  obtain ⟨e, s1⟩ := r
  simp only at hf
  cases e with
  | some e => exact hf
  | none =>
    simp only
    repeat' split
    all_goals exact hf

theorem Write_clockReads (env : Env) (b : List Nat) (s : State) :
    (Write env b s).2.2.clockReads = s.clockReads := by
  unfold Write
  split
  · rfl
  · simp only []
    split_ifs <;> (try split) <;> rfl

theorem ioCopy_clockReads (env : Env) (reads : List (List Nat)) (readErr : Option Error)
    (s : State) : (ioCopy env reads readErr s).2.clockReads = s.clockReads := by
  induction reads generalizing s with
  | nil => rfl
  | cons chunk rest ih =>
    unfold ioCopy
    have hw := Write_clockReads env chunk s
    split
    · split
      · rename_i hw1
        rw [hw1] at hw
        exact hw
      · rename_i hw1
        rw [hw1] at hw
        split
        · exact hw
        · rw [ih, hw]
    · exact ih s

/-- The clock is read once by `writeFile` when `Size()` succeeds, not at all when it
fails. -/
theorem writeFile_clockReads (env : Env) (f : FileData) (p : String) (s : State) :
    (writeFile env f p s).2.clockReads =
      s.clockReads + (match f.size with | .ok _ => 1 | .error _ => 0) := by
  unfold writeFile
  cases hsz : f.size with
  | error e => rfl
  | ok size =>
    simp only
    have hh := WriteHeader_clockReads env
      { Name := p, Size := toInt64 (toUint64 size), Typeflag := TypeReg, Mode := 0o644,
        ModTime := some (timeNow env s).1, Linkname := "" } (timeNow env s).2
    unfold writeFileHeader
    generalize WriteHeader env _ (timeNow env s).2 = r at hh
    obtain ⟨e, s1⟩ := r
    simp only [timeNow] at hh
    cases e with
    | some e => exact hh
    | none =>
      simp only
      have hc := ioCopy_clockReads env f.reads f.readErr s1
      generalize ioCopy env f.reads f.readErr s1 = r2 at hc
      obtain ⟨e2, s2⟩ := r2
      simp only at hc
      cases e2 with
      | some e2 =>
        simp only
        rw [hc, hh]
      | none =>
        simp only
        rw [Flush_clockReads, hc, hh]

theorem stampedWithin_mono (env : Env) (lo hi lo1 hi1 : Nat) (hdr : Header)
    (hlo : lo1 ≤ lo) (hhi : hi ≤ hi1) (h : stampedWithin env lo hi hdr) :
    stampedWithin env lo1 hi1 hdr := by
  rcases h with h | ⟨h1, k, h2, h3, h4⟩
  · exact Or.inl h
  · exact Or.inr ⟨h1, k, by omega, by omega, h4⟩

/-- Every header a walk adds to the sink is stamped as the writer stamps it, with a
clock reading taken during the walk. -/
theorem walk_stamped (env : Env) (ctx : Context) :
    (∀ nd p s, s.clockReads ≤ (WriteFile env ctx nd p s).2.clockReads ∧
      ∃ tail, sinkHeaders (WriteFile env ctx nd p s).2.trace = sinkHeaders s.trace ++ tail ∧
        ∀ hdr ∈ tail,
          stampedWithin env s.clockReads (WriteFile env ctx nd p s).2.clockReads hdr) ∧
    (∀ it p s, s.clockReads ≤ (iterate env ctx it p s).2.clockReads ∧
      ∃ tail, sinkHeaders (iterate env ctx it p s).2.trace = sinkHeaders s.trace ++ tail ∧
        ∀ hdr ∈ tail,
          stampedWithin env s.clockReads (iterate env ctx it p s).2.clockReads hdr) := by
  have hsymfile : ∀ tn sl f d p s, (sl ≠ none ∨ f ≠ none) →
      s.clockReads ≤ (WriteFile env ctx (.mk tn sl f d) p s).2.clockReads ∧
      ∃ tail, sinkHeaders (WriteFile env ctx (.mk tn sl f d) p s).2.trace =
          sinkHeaders s.trace ++ tail ∧
        ∀ hdr ∈ tail, stampedWithin env s.clockReads
          (WriteFile env ctx (.mk tn sl f d) p s).2.clockReads hdr := by
    intro tn sl f d p s hkind
    cases sl with
    | some target =>
      have hw : WriteFile env ctx (.mk tn (some target) f d) p s =
          ((writeSymlinkHeader env target p (((s.emit (.spanStart "tar write file")).emit
              (.spanTag "path" p)).emit (.spanTag "type" "symlink"))).1,
           (writeSymlinkHeader env target p (((s.emit (.spanStart "tar write file")).emit
              (.spanTag "path" p)).emit (.spanTag "type" "symlink"))).2.emit
                .spanFinish) := by
        unfold WriteFile
        rfl
      have hc : (WriteFile env ctx (.mk tn (some target) f d) p s).2.clockReads =
          s.clockReads := by
        rw [hw]
        simp [writeSymlinkHeader, WriteHeader_clockReads]
      refine ⟨by rw [hc], _, dispatch_sym env ctx tn target f d p s, ?_⟩
      intro hdr hmem
      split at hmem
      · simp only [List.mem_singleton] at hmem
        subst hmem
        exact Or.inl ⟨rfl, rfl⟩
      · simp at hmem
    | none =>
      cases f with
      | none => simp at hkind
      | some fd =>
        have hw : WriteFile env ctx (.mk tn none (some fd) d) p s =
            ((writeFile env fd p (((s.emit (.spanStart "tar write file")).emit
                (.spanTag "path" p)).emit (.spanTag "type" "file"))).1,
             (writeFile env fd p (((s.emit (.spanStart "tar write file")).emit
                (.spanTag "path" p)).emit (.spanTag "type" "file"))).2.emit
                  .spanFinish) := by
          unfold WriteFile
          rfl
        have hc : (WriteFile env ctx (.mk tn none (some fd) d) p s).2.clockReads =
            s.clockReads + (match fd.size with | .ok _ => 1 | .error _ => 0) := by
          rw [hw]
          simp [writeFile_clockReads]
        refine ⟨by rw [hc]; omega, ?_⟩
        rcases writeFile_sinkHeaders_cases env fd p
          (((s.emit (.spanStart "tar write file")).emit (.spanTag "path" p)).emit
            (.spanTag "type" "file")) with h | ⟨size, hsize, h⟩
        · refine ⟨[], ?_, fun hdr hh => by simp at hh⟩
          rw [hw]
          simpa using h
        · have hex : ∃ h0 : Header, h0 =
              { Name := p, Size := toInt64 (toUint64 size), Typeflag := TypeReg,
                Mode := 0o644, ModTime := some (env.clock s.clockReads), Linkname := "" } :=
            ⟨_, rfl⟩
          obtain ⟨h0, hh0⟩ := hex
          refine ⟨[h0], ?_, ?_⟩
          · rw [hw, hh0]
            simpa using h
          · subst hh0
            intro hdr hmem
            simp only [List.mem_singleton] at hmem
            subst hmem
            rw [hc, hsize]
            exact Or.inr ⟨show TypeReg ≠ TypeSymlink by decide, s.clockReads, le_refl _, by simp,
              rfl⟩
  apply tree_induction
  · intro tn sl f p s
    cases sl with
    | some target => exact hsymfile tn _ f _ p s (Or.inl (by simp))
    | none =>
      cases f with
      | some fd => exact hsymfile tn _ _ _ p s (Or.inr (by simp))
      | none =>
        unfold WriteFile
        exact ⟨le_refl _, [], by simp, fun hdr hh => by simp at hh⟩
  · intro tn sl f it ih p s
    cases sl with
    | some target => exact hsymfile tn _ f _ p s (Or.inl (by simp))
    | none =>
      cases f with
      | some fd => exact hsymfile tn _ _ _ p s (Or.inr (by simp))
      | none =>
        have hh := WriteHeader_sinkHeaders_cases env
          { Name := p, Typeflag := TypeDir, Mode := 0o777,
            ModTime := some (timeNow env (((s.emit (.spanStart "tar write file")).emit
              (.spanTag "path" p)).emit (.spanTag "type" "directory"))).1,
            Size := 0, Linkname := "" }
          (timeNow env (((s.emit (.spanStart "tar write file")).emit
              (.spanTag "path" p)).emit (.spanTag "type" "directory"))).2
        have hck := WriteHeader_clockReads env
          { Name := p, Typeflag := TypeDir, Mode := 0o777,
            ModTime := some (timeNow env (((s.emit (.spanStart "tar write file")).emit
              (.spanTag "path" p)).emit (.spanTag "type" "directory"))).1,
            Size := 0, Linkname := "" }
          (timeNow env (((s.emit (.spanStart "tar write file")).emit
              (.spanTag "path" p)).emit (.spanTag "type" "directory"))).2
        rw [WriteFile_dir]
        unfold writeDir writeDirHeader
        generalize WriteHeader env _ (timeNow env _).2 = r at hh hck
        obtain ⟨e, s1⟩ := r
        simp only [timeNow, emit_clockReads] at hck
        cases e with
        | some e =>
          refine ⟨by simp only [emit_clockReads]; omega, [], ?_,
            fun hdr hm => by simp at hm⟩
          simpa [timeNow] using hh
        | none =>
          simp only at hh ⊢
          obtain ⟨i1, more, i2, i3⟩ := ih p s1
          have hex : ∃ h0 : Header, h0 =
              { Name := p, Typeflag := TypeDir, Mode := 0o777,
                ModTime := some (env.clock s.clockReads), Size := 0, Linkname := "" } :=
            ⟨_, rfl⟩
          obtain ⟨h0, hh0⟩ := hex
          refine ⟨by simp only [emit_clockReads]; omega, h0 :: more, ?_, ?_⟩
          · subst hh0
            simp only [emit_trace, sinkHeaders_append, sinkHeaders_cons_spanFinish,
              sinkHeaders_nil, List.append_nil, i2, hh]
            simp [timeNow]
          · subst hh0
            intro hdr hmem
            simp only [emit_clockReads]
            rcases List.mem_cons.mp hmem with h | h
            · subst h
              exact Or.inr ⟨show TypeDir ≠ TypeSymlink by decide, s.clockReads, le_refl _,
                by omega, rfl⟩
            · exact stampedWithin_mono env _ _ _ _ hdr (by omega) (le_refl _) (i3 hdr h)
  · intro err p s
    unfold iterate
    exact ⟨le_refl _, [], by simp, fun hdr hm => by simp at hm⟩
  · intro name node rest ihn ihr p s
    obtain ⟨n1, t1, n2, n3⟩ := ihn (Join [p, name]) s
    rw [iterate]
    generalize WriteFile env ctx node (Join [p, name]) s = r at n1 n2 n3
    obtain ⟨e, s1⟩ := r
    simp only at n1 n2 n3
    cases e with
    | some e => exact ⟨n1, t1, n2, n3⟩
    | none =>
      simp only
      obtain ⟨r1, t2, r2, r3⟩ := ihr p s1
      refine ⟨by omega, t1 ++ t2, by rw [r2, n2, List.append_assoc], ?_⟩
      intro hdr hmem
      rcases List.mem_append.mp hmem with h | h
      · exact stampedWithin_mono env _ _ _ _ hdr (le_refl _) r1 (n3 hdr h)
      · exact stampedWithin_mono env _ _ _ _ hdr n1 (le_refl _) (r3 hdr h)

/-- C15 (amended): the header of a directory and the header of a file carry as
modification time the clock reading taken when the header is built, which is the next
reading at the start of the visit; the header of a symlink carries no modification
time. Every header a walk adds to the sink is stamped so: none for a symlink, for any
other header one of the clock readings taken during the walk. -/
theorem header_mtime_by_kind (env : Env) (ctx : Context) (tn : String)
    (sl : Option String) (f : Option FileData) (d : DirFacet) (p : String) (s : State) :
    (∀ q t, writeDirHeader env q t = WriteHeader env
      { Name := q, Typeflag := TypeDir, Mode := 0o777,
        ModTime := some (timeNow env t).1, Size := 0, Linkname := "" }
      (timeNow env t).2) ∧
    (∀ q size t, writeFileHeader env q size t = WriteHeader env
      { Name := q, Size := toInt64 size, Typeflag := TypeReg, Mode := 0o644,
        ModTime := some (timeNow env t).1, Linkname := "" }
      (timeNow env t).2) ∧
    (∀ target q t, writeSymlinkHeader env target q t = WriteHeader env
      { Name := q, Linkname := target, Mode := 0o777, Typeflag := TypeSymlink,
        Size := 0, ModTime := none } t) ∧
    ∃ tail, sinkHeaders (WriteFile env ctx (.mk tn sl f d) p s).2.trace =
        sinkHeaders s.trace ++ tail ∧
      (∀ hdr, tail.head? = some hdr →
        (sl ≠ none → hdr.ModTime = none) ∧
        (sl = none → hdr.ModTime = some (env.clock s.clockReads))) ∧
      ∀ hdr ∈ tail,
        (hdr.Typeflag = TypeSymlink ∧ hdr.ModTime = none) ∨
          (hdr.Typeflag ≠ TypeSymlink ∧
            ∃ k, s.clockReads ≤ k ∧
              k < (WriteFile env ctx (.mk tn sl f d) p s).2.clockReads ∧
              hdr.ModTime = some (env.clock k)) := by
  refine ⟨fun _ _ => rfl, fun _ _ _ => rfl, fun _ _ _ => rfl, ?_⟩
  obtain ⟨tail, htail, hfirst⟩ := visit_headers env ctx tn sl f d p s
  obtain ⟨_, tail1, htail1, hall⟩ := (walk_stamped env ctx).1 (.mk tn sl f d) p s
  have heq : tail1 = tail := List.append_cancel_left (htail1.symm.trans htail)
  subst heq
  refine ⟨tail1, htail, fun hdr hhead => ?_, hall⟩
  obtain ⟨h1, h2, h3⟩ := hfirst hdr hhead
  cases sl with
  | some target =>
    obtain ⟨_, hh⟩ := h1 target rfl
    subst hh
    exact ⟨fun _ => rfl, fun h => by simp at h⟩
  | none =>
    refine ⟨fun h => absurd rfl h, fun _ => ?_⟩
    cases f with
    | some fd =>
      obtain ⟨size, _, hh⟩ := h2 fd rfl rfl
      subst hh
      rfl
    | none =>
      have hh := h3 rfl rfl
      subst hh
      rfl

/-! ## A sink failure in the flush after the body -/

/-- C11 (the code at the failing input): over a sink that fails with `disk full` on the
write of padding, the walk of a tree whose last node is a one-byte file two levels down
meets that failure in the flush after the body copy: the writer keeps `disk full` as its
persistent error, yet the top-level `WriteFile` returns success, not `disk full`. When a
symlink follows the file, the write of its header returns the persistent error and the
top-level `WriteFile` returns `disk full` unchanged. -/
theorem sink_failure_in_last_flush_is_lost :
    envPadFails.sink [] (.padding 511) = some "disk full" ∧
      (WriteFile envPadFails background treeEndingInFile "top" NewTarWriter).2.err =
        some "disk full" ∧
      (WriteFile envPadFails background treeEndingInFile "top" NewTarWriter).1 = none ∧
      sinkKinds (WriteFile envPadFails background treeEndingInFile "top"
        NewTarWriter).2.trace =
        [("top", TypeDir), ("top/d", TypeDir), ("top/d/f", TypeReg)] ∧
      (WriteFile envPadFails background treeFileThenSymlink "top" NewTarWriter).1 =
        some "disk full" := by
  decide

end TarWriter
